import Mathlib

/-!
Verification development for the picframe image cache
(`picframe/image_cache.py`).

The SQLite store is embedded shallowly: each table is a list of rows, the
`all_data` view is a function recomputing the join, and the two cleanup
triggers are folded into the delete operations.  Timestamps (`st_mtime`,
`getmtime`) are rationals; Python's `int()` truncation is `pyInt`.  The
external capabilities (EXIF extraction via `get_image_meta.GetImageMeta`,
`time.strptime`/`time.mktime`, reverse geocoding via `geo_reverse`) are
parameters of the operations that drive them.
-/

set_option autoImplicit false

/-- Python `int()` on a rational: truncation toward zero. -/
def pyInt (q : ℚ) : Int := if 0 ≤ q then ⌊q⌋ else ⌈q⌉

/-- Round to the nearest integer, ties to even (the rounding mode of
Python `round`).  The fractional part `q - ⌊q⌋` is compared against `1/2`
on the numerator/denominator directly (`2·(num − ⌊q⌋·den)` against `den`)
so that concrete instances evaluate inside the kernel. -/
def roundHalfEven (q : ℚ) : Int :=
  let f := ⌊q⌋
  let num2 := 2 * (q.num - f * (q.den : Int))
  if num2 < (q.den : Int) then f
  else if (q.den : Int) < num2 then f + 1
  else if f % 2 = 0 then f else f + 1

/-- Python `round(x, 4)`: round to 4 decimal places, ties to even.  The
scaling by `10⁴` is done with `mkRat` on the numerator/denominator (equal
to multiplication and division by `10000`). -/
def round4 (q : ℚ) : ℚ := mkRat (roundHalfEven (mkRat (q.num * 10000) q.den)) 10000

/-- Rowid assignment of SQLite `INTEGER PRIMARY KEY`: one more than the
largest rowid currently in the table (1 on an empty table). -/
def nextId (ids : List Int) : Int := ids.foldr max 0 + 1

/-- A directory visited by `os.walk`, with its `os.stat(dir).st_mtime`. -/
structure FsFolder where
  name : String
  mtime : ℚ
deriving Repr, DecidableEq

/-- A directory entry seen by `os.listdir(dir)`, with its
`os.path.getmtime` value. -/
structure FsFile where
  dir : String
  fileName : String
  mtime : ℚ
deriving Repr, DecidableEq

/-- The filesystem as the cache observes it: `os.walk` order of directories
and the directory entries. -/
structure FileSystem where
  folders : List FsFolder
  files : List FsFile
deriving Repr, DecidableEq

/-- `os.path.exists p`. -/
def pathExists (fs : FileSystem) (p : String) : Bool :=
  fs.folders.any (fun d => d.name == p) ||
    fs.files.any (fun f => f.dir ++ "/" ++ f.fileName == p)

/-- `os.listdir dir` restricted to the modelled entries. -/
def listdir (fs : FileSystem) (dir : String) : List FsFile :=
  fs.files.filter (fun f => f.dir == dir)

/-- `os.path.getmtime path`; `none` when the path is gone (the call would
raise `FileNotFoundError`). -/
def fsGetMtime (fs : FileSystem) (path : String) : Option ℚ :=
  (fs.files.find? (fun f => f.dir ++ "/" ++ f.fileName == path)).map (·.mtime)

/-- Split a character list at its last `'.'`; the second component keeps the
dot.  `none` when there is no dot. -/
def splitLastDot : List Char → Option (List Char × List Char)
  | [] => none
  | c :: cs =>
    match splitLastDot cs with
    | some (b, e) => some (c :: b, e)
    | none => if c = '.' then some ([], c :: cs) else none

/-- `os.path.splitext` on a bare file name: split at the last dot unless
every character before it is itself a dot. -/
def splitext (s : String) : String × String :=
  match splitLastDot s.data with
  | some (b, e) => if b.any (fun c => c ≠ '.') then (⟨b⟩, ⟨e⟩) else (s, "")
  | none => (s, "")

/-- `needle in hay` on character lists. -/
def hasSubList (needle : List Char) : List Char → Bool
  | [] => needle.isEmpty
  | c :: cs => needle.isPrefixOf (c :: cs) || hasSubList needle cs

/-- Python `in` on strings (substring containment). -/
def strContains (hay needle : String) : Bool := hasSubList needle.data hay.data

/-- Python `str.lower()` (character-wise, on the underlying character
list so that concrete instances evaluate inside the kernel). -/
def strLower (s : String) : String := ⟨s.data.map Char.toLower⟩

/-- Python `str.startswith(p)` (on the underlying character list). -/
def strStartsWith (s p : String) : Bool := p.data.isPrefixOf s.data

/-- Python `str.lstrip(".")`. -/
def stripLeadingDots (s : String) : String := ⟨s.data.dropWhile (fun c => c = '.')⟩

/-- `ImageCache.EXTENSIONS`. -/
def EXTENSIONS : List String := [".png", ".jpg", ".jpeg", ".heif", ".heic"]

/-- A row of the `folder` table. -/
structure FolderRow where
  folder_id : Int
  name : String
  last_modified : ℚ
deriving Repr, DecidableEq

/-- A row of the `file` table. -/
structure FileRow where
  file_id : Int
  folder_id : Int
  basename : String
  extension : String
  last_modified : ℚ
deriving Repr, DecidableEq

/-- The metadata dictionary built by `__get_exif_info`; its keys match the
columns of the `meta` table (beyond `file_id`). -/
structure MetaDict where
  orientation : Int
  width : Int
  height : Int
  f_number : Option ℚ
  make : Option String
  model : Option String
  exposure_time : Option String
  iso : Option ℚ
  focal_length : Option String
  rating : Option Int
  lens : Option String
  exif_datetime : ℚ
  latitude : Option ℚ
  longitude : Option ℚ
deriving Repr, DecidableEq

/-- A row of the `meta` table: the primary key plus the dictionary-shaped
columns. -/
structure MetaRow where
  file_id : Int
  data : MetaDict
deriving Repr, DecidableEq

/-- A row of the `location` table. -/
structure LocationRow where
  id : Int
  latitude : Option ℚ
  longitude : Option ℚ
  description : Option String
deriving Repr, DecidableEq

/-- The SQLite store: the four tables created by `__create_open_db`. -/
structure Db where
  folder : List FolderRow
  file : List FileRow
  meta : List MetaRow
  location : List LocationRow
deriving Repr, DecidableEq

/-- A row of the `all_data` view.  `file_id` is `meta.file_id` brought in by
the LEFT JOIN, hence `none` when the file has no `meta` row; `is_portrait`
is `meta.height > meta.width` (NULL without a meta row); `location` is the
description joined on exact coordinate equality. -/
structure ViewRow where
  fname : String
  last_modified : ℚ
  file_id : Option Int
  meta : Option MetaDict
  is_portrait : Option Bool
  location : Option String
deriving Repr, DecidableEq

/-- The `location.description` column of a view row: the LEFT JOIN on
`location.latitude = meta.latitude AND location.longitude = meta.longitude`
(NULL coordinates never compare equal in SQL). -/
def lookupLoc (loc : List LocationRow) (m : Option MetaDict) : Option String :=
  match m with
  | none => none
  | some md =>
    match md.latitude, md.longitude with
    | some la, some lo =>
      (loc.find? (fun r => r.latitude == some la && r.longitude == some lo)).bind
        (·.description)
    | _, _ => none

/-- One `all_data` row for a `file` row: INNER JOIN `folder`, LEFT JOIN
`meta`, LEFT JOIN `location`. -/
def buildRow (folders : List FolderRow) (metas : List MetaRow)
    (locs : List LocationRow) (f : FileRow) : Option ViewRow :=
  (folders.find? (fun fo => fo.folder_id == f.folder_id)).map (fun fo =>
    let m := metas.find? (fun mr => mr.file_id == f.file_id)
    { fname := fo.name ++ "/" ++ f.basename ++ "." ++ f.extension
      last_modified := f.last_modified
      file_id := m.map (·.file_id)
      meta := m.map (·.data)
      is_portrait := m.map (fun mr => decide (mr.data.width < mr.data.height))
      location := lookupLoc locs (m.map (·.data)) })

/-- The `all_data` view. -/
def allData (db : Db) : List ViewRow :=
  db.file.filterMap (buildRow db.folder db.meta db.location)

/-- The out-of-date test of `__update_modified_folders`: no stored row, or
the stored `last_modified` is less than `int(st_mtime)`. -/
def folderOutOfDate (db : Db) (d : FsFolder) : Bool :=
  match db.folder.find? (fun r => r.name == d.name) with
  | none => true
  | some r => decide (r.last_modified < (pyInt d.mtime : ℚ))

/-- The scan loop of `__update_modified_folders`: walk the directories,
collect the out-of-date ones together with their `(mod_tm, name)` insert
data; on the very first run, stop after the first out-of-date directory and
clear the first-run flag.  All reads see the store as it was before the
scan (the writes happen afterwards). -/
def collectFolders (db : Db) (firstRun : Bool) :
    List FsFolder → List String × List (Int × String) × Bool
  | [] => ([], [], firstRun)
  | d :: rest =>
    if folderOutOfDate db d then
      if firstRun then ([d.name], [(pyInt d.mtime, d.name)], false)
      else
        let r := collectFolders db false rest
        (d.name :: r.1, (pyInt d.mtime, d.name) :: r.2.1, r.2.2)
    else collectFolders db firstRun rest

/-- `INSERT OR IGNORE INTO folder(last_modified, name) VALUES(?, ?)`. -/
def insertOrIgnoreFolder (db : Db) (tm : Int) (name : String) : Db :=
  if db.folder.any (fun r => r.name == name) then db
  else
    { db with folder := db.folder ++
        [{ folder_id := nextId (db.folder.map (·.folder_id)),
           name := name, last_modified := (tm : ℚ) }] }

/-- `UPDATE folder SET last_modified = ? WHERE name = ?`. -/
def updateFolderLastModified (db : Db) (tm : Int) (name : String) : Db :=
  { db with folder := db.folder.map (fun r =>
      if r.name == name then { r with last_modified := (tm : ℚ) } else r) }

/-- `__update_modified_folders`: scan, then run the batched
`INSERT OR IGNORE` statements, then the batched `UPDATE` statements.
Returns the store, the out-of-date folder names, and the first-run flag. -/
def updateModifiedFolders (fs : FileSystem) (db : Db) (firstRun : Bool) :
    Db × List String × Bool :=
  let c := collectFolders db firstRun fs.folders
  let db1 := c.2.1.foldl (fun d p => insertOrIgnoreFolder d p.1 p.2) db
  let db2 := c.2.1.foldl (fun d p => updateFolderLastModified d p.1 p.2) db1
  (db2, c.1, c.2.2)

/-- The out-of-date test of `__update_modified_files`: no `all_data` row for
the full path, or its stored `last_modified` is less than the current
`getmtime` (compared at full fractional precision). -/
def fileOutOfDate (db : Db) (fullFile : String) (modTm : ℚ) : Bool :=
  match (allData db).find? (fun r => r.fname == fullFile) with
  | none => true
  | some r => decide (r.last_modified < modTm)

/-- One element of the batched `file` insert data:
`[dir, base, extension.lstrip("."), mod_tm]`. -/
structure FileIns where
  dir : String
  base : String
  ext : String
  mtime : ℚ
deriving Repr, DecidableEq

/-- The enumeration loop of `__update_modified_files`: for each modified
folder list the directory, keep supported non-hidden entries outside
`.AppleDouble` directories, and collect the out-of-date ones.  Reads see
the store as it was before the batched write. -/
def collectFiles (fs : FileSystem) (db : Db) (dirs : List String) :
    List String × List FileIns :=
  let per := fun (dir : String) => (listdir fs dir).filterMap (fun f =>
    let be := splitext f.fileName
    if EXTENSIONS.contains (strLower be.2) && !strContains dir ".AppleDouble"
        && !(strStartsWith f.fileName ".") then
      let fullFile := dir ++ "/" ++ f.fileName
      if fileOutOfDate db fullFile f.mtime then
        some (fullFile, FileIns.mk dir be.1 (stripLeadingDots be.2) f.mtime)
      else none
    else none)
  let rows := (dirs.map per).flatten
  (rows.map (·.1), rows.map (·.2))

/-- `INSERT OR REPLACE INTO file(folder_id, basename, extension,
last_modified) VALUES((SELECT folder_id from folder where name = ?), ?, ?, ?)`.
The new row takes a fresh rowid (allocated before the conflicting row is
removed); with SQLite's default `recursive_triggers = off` the REPLACE
deletion does not fire `Clean_Meta_Trigger`.  A missing folder row would
make the subselect NULL and violate the NOT NULL constraint; the update
cycle only reaches this with the folder row already upserted. -/
def insertOrReplaceFile (db : Db) (r : FileIns) : Db :=
  match db.folder.find? (fun fo => fo.name == r.dir) with
  | none => db
  | some fo =>
    let newId := nextId (db.file.map (·.file_id))
    let kept := db.file.filter (fun f =>
      !(f.folder_id == fo.folder_id && f.basename == r.base && f.extension == r.ext))
    { db with file := kept ++
        [{ file_id := newId, folder_id := fo.folder_id, basename := r.base,
           extension := r.ext, last_modified := r.mtime }] }

/-- `__update_modified_files`: enumerate, then run the batched
`INSERT OR REPLACE` statements. -/
def updateModifiedFiles (fs : FileSystem) (db : Db) (dirs : List String) :
    Db × List String :=
  let c := collectFiles fs db dirs
  (c.2.foldl insertOrReplaceFile db, c.1)

/-- What the external `GetImageMeta` capability hands back for one file:
orientation, raw pixel size, the fixed EXIF field set, the raw
`EXIF DateTimeOriginal` string, and the GPS coordinates. -/
structure ExifData where
  orientation : Int
  width : Int
  height : Int
  fNumber : Option ℚ
  make : Option String
  model : Option String
  exposureTime : Option String
  iso : Option ℚ
  focalLength : Option String
  rating : Option Int
  lens : Option String
  dateTimeOriginal : Option String
  gpsLatitude : Option ℚ
  gpsLongitude : Option ℚ
deriving Repr, DecidableEq

/-- `__get_exif_info`.  `exif` is the external extraction capability,
`parseTime` is `time.mktime(time.strptime(v, "%Y:%m:%d %H:%M:%S"))` with
`none` for an unparsable value (where `strptime` raises `ValueError`).
The error value models the uncaught exception: an unparsable
`EXIF DateTimeOriginal`, or a vanished file when falling back to
`os.path.getmtime`. -/
def getExifInfo (exif : String → ExifData) (parseTime : String → Option ℚ)
    (fs : FileSystem) (path : String) : Except Unit MetaDict :=
  let exifs := exif path
  let swap := exifs.orientation = 5 ∨ exifs.orientation = 6 ∨
      exifs.orientation = 7 ∨ exifs.orientation = 8
  let width := if swap then exifs.height else exifs.width
  let height := if swap then exifs.width else exifs.height
  let dt : Except Unit ℚ :=
    match exifs.dateTimeOriginal with
    | some v =>
      match parseTime v with
      | some t => .ok t
      | none => .error ()
    | none =>
      match fsGetMtime fs path with
      | some t => .ok t
      | none => .error ()
  match dt with
  | .error e => .error e
  | .ok t =>
    .ok { orientation := exifs.orientation, width := width, height := height,
          f_number := exifs.fNumber, make := exifs.make, model := exifs.model,
          exposure_time := exifs.exposureTime, iso := exifs.iso,
          focal_length := exifs.focalLength, rating := exifs.rating,
          lens := exifs.lens, exif_datetime := t,
          latitude := exifs.gpsLatitude.map round4,
          longitude := exifs.gpsLongitude.map round4 }

/-- `INSERT OR REPLACE INTO meta(file_id, ...) VALUES((SELECT file_id from
all_data where fname = ?), ...)`.  The view's `file_id` column is
`meta.file_id`, so for a file without a `meta` row the subselect yields
NULL, and inserting NULL into the `INTEGER PRIMARY KEY` column makes SQLite
auto-assign a fresh rowid. -/
def insertOrReplaceMeta (db : Db) (fname : String) (m : MetaDict) : Db :=
  match ((allData db).find? (fun r => r.fname == fname)).bind (·.file_id) with
  | some i =>
    { db with meta := db.meta.filter (fun r => !(r.file_id == i)) ++ [⟨i, m⟩] }
  | none =>
    { db with meta := db.meta ++ [⟨nextId (db.meta.map (·.file_id)), m⟩] }

/-- `__update_meta_data`: extract metadata for every modified file (the
loop), then run the batched insert.  An extraction error propagates out of
the loop before any insert runs. -/
def updateMetaData (exif : String → ExifData) (parseTime : String → Option ℚ)
    (fs : FileSystem) (db : Db) (files : List String) : Except Unit Db :=
  match files.mapM (fun f => (getExifInfo exif parseTime fs f).map (fun m => (f, m))) with
  | .error e => .error e
  | .ok pairs => .ok (pairs.foldl (fun d p => insertOrReplaceMeta d p.1 p.2) db)

/-- `DELETE FROM folder WHERE folder_id = ?` together with its triggers:
`Clean_File_Trigger` deletes the owned `file` rows and, as the code's
comments assert, the cascading `Clean_Meta_Trigger` deletes their `meta`
rows. -/
def deleteFolderRowCascade (db : Db) (folderId : Int) : Db :=
  let deadFiles := db.file.filter (fun f => f.folder_id == folderId)
  { db with
    folder := db.folder.filter (fun r => !(r.folder_id == folderId)),
    file := db.file.filter (fun f => !(f.folder_id == folderId)),
    meta := db.meta.filter (fun m => !(deadFiles.any (fun f => f.file_id == m.file_id))) }

/-- `DELETE FROM file WHERE file_id = ?` together with `Clean_Meta_Trigger`. -/
def deleteFileRowCascade (db : Db) (fileId : Int) : Db :=
  { db with
    file := db.file.filter (fun f => !(f.file_id == fileId)),
    meta := db.meta.filter (fun m => !(m.file_id == fileId)) }

/-- `__purge_missing_files_and_folders`: delete folder rows whose path is
gone (cascading), then re-read `all_data` and delete file rows whose path
is gone (cascading).  The view's `file_id` column is NULL for a file
without a `meta` row, and `DELETE ... WHERE file_id = NULL` matches
nothing, hence the `filterMap`. -/
def purgeMissing (fs : FileSystem) (db : Db) : Db :=
  let folderIds := (db.folder.filter (fun r => !pathExists fs r.name)).map (·.folder_id)
  let db1 := folderIds.foldl deleteFolderRowCascade db
  let fileIds := ((allData db1).filter (fun r => !pathExists fs r.fname)).filterMap (·.file_id)
  fileIds.foldl deleteFileRowCascade db1

/-- The mutable state of `ImageCache` relevant to the update cycle. -/
structure CacheState where
  db : Db
  firstRun : Bool
deriving Repr, DecidableEq

/-- `update_cache`: one full cycle — modified folders, modified files,
metadata, purge.  Returns the new state with the modified-folder and
modified-file lists; an uncaught metadata exception aborts the cycle. -/
def runCycle (exif : String → ExifData) (parseTime : String → Option ℚ)
    (fs : FileSystem) (s : CacheState) :
    Except Unit (CacheState × List String × List String) :=
  let a := updateModifiedFolders fs s.db s.firstRun
  let b := updateModifiedFiles fs a.1 a.2.1
  match updateMetaData exif parseTime fs b.1 b.2 with
  | .error e => .error e
  | .ok db3 => .ok (⟨purgeMissing fs db3, a.2.2⟩, a.2.1, b.2)

/-- A matching `all_data` record as seen by `query_cache`, in the order
produced by the caller's filter and sort expressions (evaluating the SQL
text itself is the external engine's job): the `file_id` and the
`is_portrait` flag.  A record with a `meta` row has a Boolean flag. -/
structure QRow where
  file_id : Int
  is_portrait : Bool
deriving Repr, DecidableEq

/-- The pairing loop of `query_cache`: walk the full-pass values (`-1` is
the portrait sentinel); a real id becomes a singleton slot; for a sentinel,
if the portrait list is nonempty pop one id, pop a second if one remains,
and emit them as a slot. -/
def pairLoop : List Int → List Int → List (List Int)
  | [], _ => []
  | x :: rest, pairs =>
    if x != -1 then [x] :: pairLoop rest pairs
    else
      match pairs with
      | [] => pairLoop rest []
      | p :: ps =>
        match ps with
        | [] => [p] :: pairLoop rest []
        | q :: qs => [p, q] :: pairLoop rest qs

/-- `query_cache` over the matching records in sort order.  Without
portrait pairing each record is its own single-id tuple; in pairing mode
the first SELECT yields the id for a landscape record and `-1` for a
portrait one, the second SELECT yields the portrait ids, and the pairing
loop combines them. -/
def queryCache (portraitPairs : Bool) (rows : List QRow) : List (List Int) :=
  if !portraitPairs then rows.map (fun r => [r.file_id])
  else
    pairLoop (rows.map (fun r => if r.is_portrait then -1 else r.file_id))
      ((rows.filter (·.is_portrait)).map (·.file_id))

/-- Modelled from the spec's words (§4.6): walk the full-pass sequence in
order; a real landscape id becomes a one-element slot; for each sentinel,
consume up to two ids from the front of the portrait-pass sequence and emit
them as a slot — two if available, one if the portrait pass is down to its
last id (nothing is emitted once the portrait pass is fully consumed, as the
spec's own examples show). -/
def specPairingSlots : List (Option Int) → List Int → List (List Int)
  | [], _ => []
  | some a :: rest, ps => [a] :: specPairingSlots rest ps
  | none :: rest, p :: q :: ps => [p, q] :: specPairingSlots rest ps
  | none :: rest, [p] => [p] :: specPairingSlots rest []
  | none :: rest, [] => specPairingSlots rest []

/-- `INSERT OR REPLACE INTO location (latitude, longitude, description)
VALUES (?, ?, ?)`: conflict on `UNIQUE (latitude, longitude)` replaces; the
fresh rowid is allocated before the conflicting row is removed. -/
def insertOrReplaceLocation (db : Db) (lat lon : ℚ) (desc : String) : Db :=
  let newId := nextId (db.location.map (·.id))
  { db with location :=
      db.location.filter (fun r => !(r.latitude == some lat && r.longitude == some lon)) ++
        [{ id := newId, latitude := some lat, longitude := some lon,
           description := some desc }] }

/-- `__get_geo_location`: invoke the geocode capability; an empty result is
not cached (`False`), a non-empty one is written into `location` (`True`). -/
def getGeoLocation (geo : ℚ → ℚ → String) (db : Db) (lat lon : ℚ) : Bool × Db :=
  let location := geo lat lon
  if location.length == 0 then (false, db)
  else (true, insertOrReplaceLocation db lat lon location)

/-- `get_file_info`: fetch the `all_data` row by `file_id` (a missing row
makes the subsequent `row['latitude']` subscript raise, the error value);
when the record has coordinates but no cached location, resolve and re-read
on success.  The `Nat` counts the geocode-capability invocations. -/
def getFileInfo (geo : ℚ → ℚ → String) (db : Db) (fileId : Int) :
    Except Unit (Option ViewRow × Db × Nat) :=
  match (allData db).find? (fun r => r.file_id == some fileId) with
  | none => .error ()
  | some row =>
    match row.meta.bind (·.latitude), row.meta.bind (·.longitude), row.location with
    | some lat, some lon, none =>
      match getGeoLocation geo db lat lon with
      | (true, db1) => .ok ((allData db1).find? (fun r => r.file_id == some fileId), db1, 1)
      | (false, db1) => .ok (some row, db1, 1)
    | _, _, _ => .ok (some row, db, 0)

/-- Decidable equality for `Except`, so that concrete runs of the fallible
operations can be checked by `decide`. -/
instance instDecEqExcept {ε α : Type} [DecidableEq ε] [DecidableEq α] :
    DecidableEq (Except ε α) := fun a b =>
  match a, b with
  | .error e, .error e1 =>
    if h : e = e1 then .isTrue (by rw [h]) else .isFalse (by simp [h])
  | .error _, .ok _ => .isFalse (by simp)
  | .ok _, .error _ => .isFalse (by simp)
  | .ok x, .ok y =>
    if h : x = y then .isTrue (by rw [h]) else .isFalse (by simp [h])

/-! ### Generic list lemmas -/

theorem find?_map_pred {α : Type} (g : α → α) (p : α → Bool)
    (h : ∀ a, p (g a) = p a) : ∀ l : List α, (l.map g).find? p = (l.find? p).map g := by
  intro l
  induction l with
  | nil => rfl
  | cons a t ih =>
    simp only [List.map_cons, List.find?_cons]
    rw [h a]
    cases hp : p a <;> simp [ih]

theorem find?_filter_keep {α : Type} (p keep : α → Bool) :
    ∀ l : List α, (∀ a ∈ l, p a = true → keep a = true) →
      (l.filter keep).find? p = l.find? p := by
  intro l
  induction l with
  | nil => intro _; rfl
  | cons a t ih =>
    intro h
    by_cases hk : keep a = true
    · rw [List.filter_cons_of_pos hk]
      simp only [List.find?_cons]
      cases hp : p a
      · exact ih fun x hx => h x (List.mem_cons_of_mem a hx)
      · rfl
    · have hp : p a = false := by
        cases hpa : p a
        · rfl
        · exact absurd (h a (List.mem_cons_self a t) hpa) hk
      rw [List.filter_cons_of_neg (by simp [hk])]
      simp only [List.find?_cons, hp]
      exact ih fun x hx => h x (List.mem_cons_of_mem a hx)

theorem find?_filter_not {α : Type} (p : α → Bool) :
    ∀ l : List α, (l.filter (fun a => !p a)).find? p = none := by
  intro l
  induction l with
  | nil => rfl
  | cons a t ih =>
    cases hp : p a
    · rw [List.filter_cons_of_pos (by simp [hp])]
      simp only [List.find?_cons, hp]
      exact ih
    · rw [List.filter_cons_of_neg (by simp [hp])]
      exact ih

theorem filter_of_filter_not {α : Type} (p : α → Bool) (l : List α) :
    (l.filter (fun a => !p a)).filter p = [] := by
  rw [List.filter_filter]
  apply List.filter_eq_nil_iff.mpr
  intro a _
  cases hp : p a <;> simp [hp]

theorem le_foldr_max (l : List Int) : ∀ x ∈ l, x ≤ l.foldr max 0 := by
  induction l with
  | nil => intro x hx; cases hx
  | cons a t ih =>
    intro x hx
    rcases List.mem_cons.mp hx with rfl | hx
    · exact le_max_left _ _
    · exact le_trans (ih x hx) (le_max_right _ _)

theorem lt_nextId (l : List Int) (x : Int) (hx : x ∈ l) : x < nextId l :=
  lt_of_le_of_lt (le_foldr_max l x hx) (by simp [nextId])

theorem nextId_not_mem (l : List Int) : nextId l ∉ l := by
  intro h
  exact absurd rfl (ne_of_gt (lt_nextId l _ h))

/-! ### C1: portrait pairing -/

theorem pairLoop_eq_spec (ps : List Int) (rows : List QRow)
    (h : ∀ r ∈ rows, r.file_id ≠ -1) :
    pairLoop (rows.map (fun r => if r.is_portrait then -1 else r.file_id)) ps =
      specPairingSlots
        (rows.map (fun r => if r.is_portrait then none else some r.file_id)) ps := by
  induction rows generalizing ps with
  | nil => rfl
  | cons r rest ih =>
    have hr : r.file_id ≠ -1 := h r (List.mem_cons_self r rest)
    have hrest : ∀ x ∈ rest, x.file_id ≠ -1 := fun x hx => h x (List.mem_cons_of_mem r hx)
    cases hp : r.is_portrait
    · simp only [List.map_cons, hp, if_neg Bool.false_ne_true, pairLoop, specPairingSlots]
      rw [if_pos (by simpa using hr)]
      simp [ih ps hrest]
    · simp only [List.map_cons, hp, if_pos rfl, pairLoop, specPairingSlots]
      rw [if_neg (by simp)]
      match ps with
      | [] => exact ih [] hrest
      | [p] => simp [specPairingSlots, ih [] hrest]
      | p :: q :: t => simp [specPairingSlots, ih t hrest]

/-- C1: in portrait-pairing mode, `query_cache` returns exactly the slots
described by the spec's pairing algorithm — full pass with sentinels for
portrait records, portrait pass, then the walk consuming up to two portrait
ids per sentinel — and on the two example orderings
`[landscape A, portrait B, portrait C, landscape D]` and
`[portrait B, portrait C, portrait D]` it yields `[[A],[B,C],[D]]` and
`[[B,C],[D]]`. -/
theorem C1_query_pairing :
    (∀ rows : List QRow, (∀ r ∈ rows, r.file_id ≠ -1) →
      queryCache true rows =
        specPairingSlots
          (rows.map (fun r => if r.is_portrait then none else some r.file_id))
          ((rows.filter (·.is_portrait)).map (·.file_id)))
    ∧ queryCache true [⟨10, false⟩, ⟨20, true⟩, ⟨30, true⟩, ⟨40, false⟩]
        = [[10], [20, 30], [40]]
    ∧ queryCache true [⟨20, true⟩, ⟨30, true⟩, ⟨40, true⟩] = [[20, 30], [40]] := by
  refine ⟨fun rows h => ?_, by decide, by decide⟩
  simp only [queryCache, Bool.not_true, Bool.false_eq_true, if_false]
  exact pairLoop_eq_spec _ rows h

theorem C1_query_pairing_witness :
    (∀ r ∈ ([⟨10, false⟩, ⟨20, true⟩, ⟨30, true⟩] : List QRow), r.file_id ≠ -1)
    ∧ queryCache true [⟨10, false⟩, ⟨20, true⟩, ⟨30, true⟩] =
        specPairingSlots
          (([⟨10, false⟩, ⟨20, true⟩, ⟨30, true⟩] : List QRow).map
            (fun r => if r.is_portrait then none else some r.file_id))
          ((([⟨10, false⟩, ⟨20, true⟩, ⟨30, true⟩] : List QRow).filter
            (·.is_portrait)).map (·.file_id)) :=
  ⟨by decide, C1_query_pairing.1 _ (by decide)⟩

/-! ### C9: missing record raises -/

/-- C9: for a file id with no matching `all_data` row, `get_file_info`
neither returns a record nor an error value: `fetchone` yields no row and
the subscript on the absent row raises, the modelled error outcome. -/
theorem C9_missing_id_raises (geo : ℚ → ℚ → String) (db : Db) (fid : Int)
    (h : (allData db).find? (fun r => r.file_id == some fid) = none) :
    getFileInfo geo db fid = .error () := by
  unfold getFileInfo
  rw [h]

theorem C9_missing_id_raises_witness :
    (allData ⟨[], [], [], []⟩).find? (fun r => r.file_id == some 5) = none
    ∧ getFileInfo (fun _ _ => "") ⟨[], [], [], []⟩ 5 = .error () :=
  ⟨by decide, C9_missing_id_raises (fun _ _ => "") ⟨[], [], [], []⟩ 5 (by decide)⟩

/-! ### C7: GPS rounding -/

/-- C7: `__get_exif_info` stores GPS coordinates rounded to 4 decimal
places (and a missing coordinate as null): whenever extraction succeeds the
stored latitude/longitude are the capability's values mapped through
`round4`, and `(51.50123456, -0.12783210)` rounds to `(51.5012, -0.1278)`. -/
theorem C7_gps_rounding :
    (∀ (exif : String → ExifData) (pt : String → Option ℚ) (fs : FileSystem)
        (path : String) (e : MetaDict), getExifInfo exif pt fs path = .ok e →
      e.latitude = ((exif path).gpsLatitude).map round4 ∧
        e.longitude = ((exif path).gpsLongitude).map round4)
    ∧ round4 (51.50123456 : ℚ) = (51.5012 : ℚ)
    ∧ round4 (-0.12783210 : ℚ) = (-0.1278 : ℚ) := by
  have l1 : (51.50123456 : ℚ) = mkRat 5150123456 100000000 := by
    norm_num [Rat.mkRat_eq_div]
  have l2 : (51.5012 : ℚ) = mkRat 515012 10000 := by norm_num [Rat.mkRat_eq_div]
  have l3 : (-0.12783210 : ℚ) = mkRat (-12783210) 100000000 := by
    norm_num [Rat.mkRat_eq_div]
  have l4 : (-0.1278 : ℚ) = mkRat (-1278) 10000 := by norm_num [Rat.mkRat_eq_div]
  refine ⟨fun exif pt fs path e h => ?_, by rw [l1, l2]; decide, by rw [l3, l4]; decide⟩
  rcases hdto : (exif path).dateTimeOriginal with _ | v
  · rcases hmt : fsGetMtime fs path with _ | t
    · simp [getExifInfo, hdto, hmt] at h
    · simp only [getExifInfo, hdto, hmt] at h
      rw [Except.ok.injEq] at h
      subst h
      exact ⟨rfl, rfl⟩
  · rcases hpt : pt v with _ | t
    · simp [getExifInfo, hdto, hpt] at h
    · simp only [getExifInfo, hdto, hpt] at h
      rw [Except.ok.injEq] at h
      subst h
      exact ⟨rfl, rfl⟩

def exifW7 : String → ExifData := fun _ =>
  { orientation := 1, width := 4, height := 3, fNumber := none, make := none,
    model := none, exposureTime := none, iso := none, focalLength := none,
    rating := none, lens := none, dateTimeOriginal := some "2020:01:01 00:00:00",
    gpsLatitude := some (mkRat 5150123456 100000000),
    gpsLongitude := some (mkRat (-12783210) 100000000) }

def metaW7 : MetaDict :=
  { orientation := 1, width := 4, height := 3, f_number := none, make := none,
    model := none, exposure_time := none, iso := none, focal_length := none,
    rating := none, lens := none, exif_datetime := 7,
    latitude := some (mkRat 515012 10000), longitude := some (mkRat (-1278) 10000) }

theorem C7_gps_rounding_witness :
    getExifInfo exifW7 (fun _ => some 7) ⟨[], []⟩ "/p/x.jpg" = .ok metaW7
    ∧ metaW7.latitude = ((exifW7 "/p/x.jpg").gpsLatitude).map round4
    ∧ metaW7.longitude = ((exifW7 "/p/x.jpg").gpsLongitude).map round4 :=
  ⟨by decide, C7_gps_rounding.1 exifW7 (fun _ => some 7) ⟨[], []⟩ "/p/x.jpg" metaW7 (by decide)⟩

/-! ### C10: folder mtimes truncated, file mtimes full precision -/

/-- C10: the scanner stores folder mtimes truncated by `int(st_mtime)`
(`pyInt`), so an mtime advance within one integer second compares equal to
the stored value and the folder is not reported modified; file mtimes are
compared at full fractional precision, so any strict advance — fractional
or not — is detected (and none is when the stored value is current). -/
theorem C10_mtime_precision :
    (∀ (db : Db) (name : String) (t t1 : ℚ) (r : FolderRow),
      db.folder.find? (fun x => x.name == name) = some r →
      r.last_modified = (pyInt t : ℚ) → pyInt t1 = pyInt t →
      folderOutOfDate db ⟨name, t1⟩ = false)
    ∧ (∀ (db : Db) (fname : String) (t1 : ℚ) (v : ViewRow),
      (allData db).find? (fun x => x.fname == fname) = some v →
      v.last_modified < t1 → fileOutOfDate db fname t1 = true)
    ∧ (∀ (db : Db) (fname : String) (t1 : ℚ) (v : ViewRow),
      (allData db).find? (fun x => x.fname == fname) = some v →
      t1 ≤ v.last_modified → fileOutOfDate db fname t1 = false)
    ∧ (∀ (db : Db) (d : FsFolder), folderOutOfDate db d = true →
      collectFolders db false [d] = ([d.name], [(pyInt d.mtime, d.name)], false)) := by
  refine ⟨fun db name t t1 r hf hlm ht => ?_, fun db fname t1 v hf hlt => ?_,
    fun db fname t1 v hf hle => ?_, fun db d hood => ?_⟩
  · unfold folderOutOfDate
    rw [hf]
    show decide (r.last_modified < ((pyInt t1 : Int) : ℚ)) = false
    rw [hlm, ht]
    simp
  · unfold fileOutOfDate
    rw [hf]
    simpa using hlt
  · unfold fileOutOfDate
    rw [hf]
    simpa using not_lt.mpr hle
  · simp [collectFolders, hood]

theorem C10_mtime_precision_witness :
    ((⟨[⟨1, "/p", 5⟩], [], [], []⟩ : Db).folder.find? (fun x => x.name == "/p")
        = some ⟨1, "/p", 5⟩
      ∧ (⟨1, "/p", 5⟩ : FolderRow).last_modified = (pyInt (mkRat 21 4) : ℚ)
      ∧ pyInt (mkRat 23 4) = pyInt (mkRat 21 4)
      ∧ folderOutOfDate ⟨[⟨1, "/p", 5⟩], [], [], []⟩ ⟨"/p", mkRat 23 4⟩ = false)
    ∧ ((allData ⟨[⟨1, "/p", 5⟩], [⟨1, 1, "x", "jpg", 5⟩], [], []⟩).find?
          (fun x => x.fname == "/p/x.jpg")
        = some ⟨"/p/x.jpg", 5, none, none, none, none⟩
      ∧ (5 : ℚ) < mkRat 23 4
      ∧ fileOutOfDate ⟨[⟨1, "/p", 5⟩], [⟨1, 1, "x", "jpg", 5⟩], [], []⟩ "/p/x.jpg"
          (mkRat 23 4) = true) := by
  have h1 := C10_mtime_precision.1 ⟨[⟨1, "/p", 5⟩], [], [], []⟩ "/p" (mkRat 21 4)
    (mkRat 23 4) ⟨1, "/p", 5⟩ (by decide) (by decide) (by decide)
  have h2 := C10_mtime_precision.2.1 ⟨[⟨1, "/p", 5⟩], [⟨1, 1, "x", "jpg", 5⟩], [], []⟩
    "/p/x.jpg" (mkRat 23 4) ⟨"/p/x.jpg", 5, none, none, none, none⟩ (by decide) (by decide)
  exact ⟨⟨by decide, by decide, by decide, h1⟩, by decide, by decide, h2⟩

/-! ### C5: re-scan keeps the triple unique but replaces the row -/

theorem C5_counterexample :
    (insertOrReplaceFile ⟨[⟨1, "/p", 3⟩], [⟨1, 1, "x", "jpg", 5⟩], [], []⟩
        ⟨"/p", "x", "jpg", 9⟩).file = [⟨2, 1, "x", "jpg", 9⟩]
    ∧ ¬ ∃ f ∈ (insertOrReplaceFile ⟨[⟨1, "/p", 3⟩], [⟨1, 1, "x", "jpg", 5⟩], [], []⟩
        ⟨"/p", "x", "jpg", 9⟩).file, f.file_id = 1 := by
  exact ⟨by decide, by decide⟩

/-- C5 (amended): re-scanning a recorded physical file keeps the
`(folder, base name, extension)` triple unique — after the write exactly one
row carries the triple, with the new mtime — but `INSERT OR REPLACE` does
not update the row in place: the surviving row carries a fresh id
(`nextId`), different from the id of every pre-existing row and in
particular from the replaced row's. -/
theorem C5_replace_unique_fresh_id (db : Db) (r0 : FileIns) (fo : FolderRow)
    (f : FileRow) (hfo : db.folder.find? (fun x => x.name == r0.dir) = some fo)
    (hf : f ∈ db.file) (_h1 : f.folder_id = fo.folder_id) (_h2 : f.basename = r0.base)
    (_h3 : f.extension = r0.ext) :
    ((insertOrReplaceFile db r0).file.filter (fun g =>
        g.folder_id == fo.folder_id && g.basename == r0.base && g.extension == r0.ext))
      = [{ file_id := nextId (db.file.map (·.file_id)), folder_id := fo.folder_id,
           basename := r0.base, extension := r0.ext, last_modified := r0.mtime }]
    ∧ nextId (db.file.map (·.file_id)) ≠ f.file_id := by
  constructor
  · unfold insertOrReplaceFile
    rw [hfo]
    simp only [List.filter_append, filter_of_filter_not, List.nil_append]
    simp
  · have : f.file_id ∈ db.file.map (·.file_id) := List.mem_map.mpr ⟨f, hf, rfl⟩
    exact ne_of_gt (lt_nextId _ _ this)

theorem C5_replace_unique_fresh_id_witness :
    ((⟨[⟨1, "/p", 3⟩], [⟨1, 1, "x", "jpg", 5⟩], [], []⟩ : Db).folder.find?
        (fun x => x.name == "/p") = some ⟨1, "/p", 3⟩
      ∧ (⟨1, 1, "x", "jpg", 5⟩ : FileRow) ∈
          (⟨[⟨1, "/p", 3⟩], [⟨1, 1, "x", "jpg", 5⟩], [], []⟩ : Db).file)
    ∧ ((insertOrReplaceFile ⟨[⟨1, "/p", 3⟩], [⟨1, 1, "x", "jpg", 5⟩], [], []⟩
          ⟨"/p", "x", "jpg", 9⟩).file.filter (fun g =>
            g.folder_id == 1 && g.basename == "x" && g.extension == "jpg"))
        = [⟨2, 1, "x", "jpg", 9⟩]
    ∧ (2 : Int) ≠ 1 := by
  have h := C5_replace_unique_fresh_id ⟨[⟨1, "/p", 3⟩], [⟨1, 1, "x", "jpg", 5⟩], [], []⟩
    ⟨"/p", "x", "jpg", 9⟩ ⟨1, "/p", 3⟩ ⟨1, 1, "x", "jpg", 5⟩ (by decide) (by decide)
    rfl rfl rfl
  exact ⟨⟨by decide, by decide⟩, h.1, h.2⟩

/-! ### Scan-loop characterizations -/

theorem collectFolders_false (db : Db) (dirs : List FsFolder) :
    collectFolders db false dirs =
      ((dirs.filter (folderOutOfDate db)).map (·.name),
       (dirs.filter (folderOutOfDate db)).map (fun d => (pyInt d.mtime, d.name)),
       false) := by
  induction dirs with
  | nil => rfl
  | cons d rest ih =>
    by_cases h : folderOutOfDate db d = true
    · rw [List.filter_cons_of_pos h]
      simp [collectFolders, h, ih]
    · rw [List.filter_cons_of_neg h]
      simp only [collectFolders, if_neg h]
      exact ih

theorem collectFolders_nil_of_current (db : Db) (fr : Bool) (dirs : List FsFolder)
    (h : ∀ d ∈ dirs, folderOutOfDate db d = false) :
    collectFolders db fr dirs = ([], [], fr) := by
  induction dirs with
  | nil => rfl
  | cons d rest ih =>
    have hd := h d (List.mem_cons_self d rest)
    simp only [collectFolders, hd, Bool.false_eq_true, if_false]
    exact ih fun x hx => h x (List.mem_cons_of_mem d hx)

theorem collectFolders_first_run (db : Db) (dirs : List FsFolder) :
    ((collectFolders db true dirs).1).length ≤ 1
    ∧ ((collectFolders db true dirs).2.2 = false ↔ (collectFolders db true dirs).1 ≠ []) := by
  induction dirs with
  | nil => simp [collectFolders]
  | cons d rest ih =>
    by_cases h : folderOutOfDate db d = true
    · simp [collectFolders, h]
    · simp only [collectFolders, h, Bool.false_eq_true, if_false]
      exact ih

/-! ### C8: first-run scan truncation -/

def exifNone : String → ExifData := fun _ =>
  { orientation := 1, width := 4, height := 3, fNumber := none, make := none,
    model := none, exposureTime := none, iso := none, focalLength := none,
    rating := none, lens := none, dateTimeOriginal := none,
    gpsLatitude := none, gpsLongitude := none }

def parseNone : String → Option ℚ := fun _ => none

theorem C8_counterexample :
    runCycle exifNone parseNone ⟨[⟨"/p/a", 1⟩, ⟨"/p/b", 1⟩], []⟩
        ⟨⟨[⟨1, "/p/a", 1⟩, ⟨2, "/p/b", 1⟩], [], [], []⟩, true⟩
      = .ok (⟨⟨[⟨1, "/p/a", 1⟩, ⟨2, "/p/b", 1⟩], [], [], []⟩, true⟩, [], [])
    ∧ runCycle exifNone parseNone ⟨[⟨"/p/a", 9⟩, ⟨"/p/b", 9⟩], []⟩
        ⟨⟨[⟨1, "/p/a", 1⟩, ⟨2, "/p/b", 1⟩], [], [], []⟩, true⟩
      = .ok (⟨⟨[⟨1, "/p/a", 9⟩, ⟨2, "/p/b", 1⟩], [], [], []⟩, false⟩, ["/p/a"], [])
    ∧ folderOutOfDate ⟨[⟨1, "/p/a", 1⟩, ⟨2, "/p/b", 1⟩], [], [], []⟩ ⟨"/p/b", 9⟩
        = true :=
  ⟨by decide, by decide, by decide⟩

/-- C8 (amended): while the first-run flag is set, the scanner stops
walking as soon as the first out-of-date folder is found, returning at most
one folder — but the flag is cleared exactly when such a folder is found,
so a first cycle that finds nothing leaves the flag set and the truncated
scan recurs; a cycle run with the flag clear scans the whole tree,
returning every out-of-date folder. -/
theorem C8_first_run_truncation :
    (∀ (db : Db) (dirs : List FsFolder),
      ((collectFolders db true dirs).1).length ≤ 1
      ∧ ((collectFolders db true dirs).2.2 = false
          ↔ (collectFolders db true dirs).1 ≠ []))
    ∧ (∀ (db : Db) (dirs : List FsFolder),
      (collectFolders db false dirs).1
          = (dirs.filter (folderOutOfDate db)).map (·.name)
      ∧ (collectFolders db false dirs).2.2 = false) :=
  ⟨fun db dirs => collectFolders_first_run db dirs,
   fun db dirs => by rw [collectFolders_false]; exact ⟨rfl, rfl⟩⟩

/-! ### C3: one extraction failure aborts the whole batch -/

def exifC3 : String → ExifData := fun p =>
  { orientation := 1, width := 4, height := 3, fNumber := none, make := none,
    model := none, exposureTime := none, iso := none, focalLength := none,
    rating := none, lens := none,
    dateTimeOriginal := if p == "/p/a.jpg" then some "garbage" else none,
    gpsLatitude := none, gpsLongitude := none }

def fsC3 : FileSystem := ⟨[⟨"/p", 1⟩], [⟨"/p", "a.jpg", 1⟩, ⟨"/p", "b.jpg", 1⟩]⟩

def dbC3 : Db :=
  ⟨[⟨1, "/p", 1⟩], [⟨1, 1, "a", "jpg", 1⟩, ⟨2, 1, "b", "jpg", 1⟩], [], []⟩

def metaC3b : MetaDict :=
  { orientation := 1, width := 4, height := 3, f_number := none, make := none,
    model := none, exposure_time := none, iso := none, focal_length := none,
    rating := none, lens := none, exif_datetime := 1, latitude := none,
    longitude := none }

/-- C3: `__update_meta_data` has no per-file error isolation.  On the batch
`["/p/a.jpg", "/p/b.jpg"]`, where `a.jpg` carries an unparsable
`EXIF DateTimeOriginal` (`time.strptime` raises `ValueError`), the whole
call aborts with the uncaught exception and nothing is upserted — although
the same call on `["/p/b.jpg"]` alone succeeds and upserts `b.jpg`'s Meta
row.  This contradicts the claimed (and spec-required) log-and-skip
behavior. -/
theorem C3_extraction_abort :
    updateMetaData exifC3 parseNone fsC3 dbC3 ["/p/a.jpg", "/p/b.jpg"] = .error ()
    ∧ updateMetaData exifC3 parseNone fsC3 dbC3 ["/p/b.jpg"]
        = .ok { dbC3 with meta := [⟨1, metaC3b⟩] }
    ∧ getExifInfo exifC3 parseNone fsC3 "/p/b.jpg" = .ok metaC3b :=
  ⟨by decide, by decide, by decide⟩

/-! ### C6: geocode caching on read -/

theorem string_length_ne_zero (s : String) (h : s ≠ "") : s.length ≠ 0 := by
  intro h0
  apply h
  cases s with
  | mk data =>
    have : data = [] := List.eq_nil_of_length_eq_zero h0
    rw [this]

theorem buildRow_set_location (folders : List FolderRow) (metas : List MetaRow)
    (locs locs1 : List LocationRow) (f : FileRow) :
    buildRow folders metas locs1 f =
      (buildRow folders metas locs f).map
        (fun v => { v with location := lookupLoc locs1 v.meta }) := by
  unfold buildRow
  cases folders.find? (fun fo => fo.folder_id == f.folder_id) with
  | none => rfl
  | some fo => rfl

theorem allData_set_location (db : Db) (locs1 : List LocationRow) :
    allData { db with location := locs1 } =
      (allData db).map (fun v => { v with location := lookupLoc locs1 v.meta }) := by
  unfold allData
  rw [List.map_filterMap]
  simp only
  induction db.file with
  | nil => rfl
  | cons f t ih =>
    simp only [List.filterMap_cons]
    rw [buildRow_set_location db.folder db.meta db.location locs1 f]
    cases buildRow db.folder db.meta db.location f with
    | none => exact ih
    | some v => simp [ih]

theorem find?_allData_set_location (db : Db) (locs1 : List LocationRow) (fid : Int) :
    (allData { db with location := locs1 }).find? (fun r => r.file_id == some fid) =
      ((allData db).find? (fun r => r.file_id == some fid)).map
        (fun v => { v with location := lookupLoc locs1 v.meta }) := by
  rw [allData_set_location db locs1]
  exact find?_map_pred (fun v => { v with location := lookupLoc locs1 v.meta })
    (fun r => r.file_id == some fid) (fun a => rfl) (allData db)

/-- C6: `get_file_info` on a record with coordinates but no cached
description: a non-empty geocode result is written into `location` and the
re-read row carries the description, and the second call for the same
record performs no geocode invocation (one invocation across both calls),
returning the cached row; an empty result changes nothing and the call (and
thus every repetition of it) invokes the capability again. -/
theorem C6_geocode_caching (geo : ℚ → ℚ → String) (db : Db) (fid : Int)
    (row : ViewRow) (lat lon : ℚ)
    (h1 : (allData db).find? (fun r => r.file_id == some fid) = some row)
    (h2 : row.meta.bind (·.latitude) = some lat)
    (h3 : row.meta.bind (·.longitude) = some lon)
    (h4 : row.location = none) :
    (geo lat lon ≠ "" →
      getFileInfo geo db fid
        = .ok (some { row with location := some (geo lat lon) },
               insertOrReplaceLocation db lat lon (geo lat lon), 1)
      ∧ getFileInfo geo (insertOrReplaceLocation db lat lon (geo lat lon)) fid
        = .ok (some { row with location := some (geo lat lon) },
               insertOrReplaceLocation db lat lon (geo lat lon), 0))
    ∧ (geo lat lon = "" → getFileInfo geo db fid = .ok (some row, db, 1)) := by
  obtain ⟨md, hmd⟩ : ∃ md, row.meta = some md := by
    cases hm : row.meta with
    | none => rw [hm] at h2; simp at h2
    | some md => exact ⟨md, rfl⟩
  rw [hmd] at h2 h3
  simp only [Option.some_bind] at h2 h3
  have hlook : ∀ desc : String,
      lookupLoc (insertOrReplaceLocation db lat lon desc).location (some md)
        = some desc := by
    intro desc
    simp only [lookupLoc, h2, h3]
    unfold insertOrReplaceLocation
    simp only [List.find?_append, find?_filter_not, Option.none_or]
    simp [List.find?_cons]
  constructor
  · intro hne
    have hlen : ((geo lat lon).length == 0) = false := by
      simpa using string_length_ne_zero (geo lat lon) hne
    have hrow1 : (allData (insertOrReplaceLocation db lat lon (geo lat lon))).find?
        (fun r => r.file_id == some fid)
        = some { row with location := some (geo lat lon) } := by
      have : insertOrReplaceLocation db lat lon (geo lat lon)
          = { db with location := (insertOrReplaceLocation db lat lon (geo lat lon)).location } := by
        unfold insertOrReplaceLocation
        rfl
      rw [this, find?_allData_set_location, h1]
      have h5 : ({ row with location := lookupLoc (insertOrReplaceLocation db lat lon (geo lat lon)).location row.meta } : ViewRow) = { row with location := some (geo lat lon) } := by
        rw [hmd, hlook]
      rw [Option.map_some', h5]
    constructor
    · unfold getFileInfo
      rw [h1]
      simp only [hmd, Option.some_bind, h2, h3, h4]
      unfold getGeoLocation
      simp only [hlen, Bool.false_eq_true, if_false]
      rw [hrow1, hmd]
    · unfold getFileInfo
      rw [hrow1]
      simp [hmd, h2, h3]
  · intro he
    unfold getFileInfo
    rw [h1]
    simp only [hmd, Option.some_bind, h2, h3, h4]
    unfold getGeoLocation
    simp [he]

def mW6 : MetaDict :=
  { orientation := 1, width := 4, height := 3, f_number := none, make := none,
    model := none, exposure_time := none, iso := none, focal_length := none,
    rating := none, lens := none, exif_datetime := 1, latitude := some 51,
    longitude := some 2 }

def dbW6 : Db := ⟨[⟨1, "/p", 1⟩], [⟨1, 1, "x", "jpg", 1⟩], [⟨1, mW6⟩], []⟩

def rowW6 : ViewRow := ⟨"/p/x.jpg", 1, some 1, some mW6, some false, none⟩

def geoW6 : ℚ → ℚ → String := fun la _ => if la == 51 then "London" else ""

theorem C6_geocode_caching_witness :
    ((allData dbW6).find? (fun r => r.file_id == some 1) = some rowW6
      ∧ rowW6.meta.bind (·.latitude) = some 51
      ∧ rowW6.meta.bind (·.longitude) = some 2
      ∧ rowW6.location = none ∧ geoW6 51 2 ≠ "")
    ∧ getFileInfo geoW6 dbW6 1
        = .ok (some { rowW6 with location := some (geoW6 51 2) },
               insertOrReplaceLocation dbW6 51 2 (geoW6 51 2), 1)
    ∧ getFileInfo geoW6 (insertOrReplaceLocation dbW6 51 2 (geoW6 51 2)) 1
        = .ok (some { rowW6 with location := some (geoW6 51 2) },
               insertOrReplaceLocation dbW6 51 2 (geoW6 51 2), 0) := by
  have h := (C6_geocode_caching geoW6 dbW6 1 rowW6 51 2 (by decide) (by decide)
    (by decide) (by decide)).1 (by decide)
  exact ⟨⟨by decide, by decide, by decide, by decide, by decide⟩, h.1, h.2⟩

/-! ### Folder write-phase lemmas -/

theorem insertOrIgnoreFolder_folder_append (db : Db) (t : Int) (n : String) :
    ∃ s, (insertOrIgnoreFolder db t n).folder = db.folder ++ s := by
  unfold insertOrIgnoreFolder
  split
  · exact ⟨[], (List.append_nil _).symm⟩
  · exact ⟨_, rfl⟩

theorem insertOrIgnoreFolder_exists_name (db : Db) (t : Int) (n : String) :
    ∃ r ∈ (insertOrIgnoreFolder db t n).folder, r.name = n := by
  unfold insertOrIgnoreFolder
  split
  · next h =>
    obtain ⟨r, hr, hbeq⟩ := List.any_eq_true.mp h
    exact ⟨r, hr, by simpa using hbeq⟩
  · refine ⟨_, List.mem_append_right _ (List.mem_singleton.mpr rfl), rfl⟩

theorem insertOrIgnoreFolder_rest (db : Db) (t : Int) (n : String) :
    (insertOrIgnoreFolder db t n).file = db.file
    ∧ (insertOrIgnoreFolder db t n).meta = db.meta
    ∧ (insertOrIgnoreFolder db t n).location = db.location := by
  unfold insertOrIgnoreFolder
  split <;> exact ⟨rfl, rfl, rfl⟩

theorem insertOrIgnoreFolder_ids_nodup (db : Db) (t : Int) (n : String)
    (h : (db.folder.map (·.folder_id)).Nodup) :
    ((insertOrIgnoreFolder db t n).folder.map (·.folder_id)).Nodup := by
  unfold insertOrIgnoreFolder
  split
  · exact h
  · rw [List.map_append]
    rw [List.nodup_append]
    refine ⟨h, List.nodup_singleton _, ?_⟩
    intro a ha hb
    rw [List.map_singleton, List.mem_singleton] at hb
    subst hb
    exact nextId_not_mem _ ha

theorem insFold_folder_append (ins : List (Int × String)) :
    ∀ db : Db, ∃ s,
      (ins.foldl (fun d p => insertOrIgnoreFolder d p.1 p.2) db).folder
        = db.folder ++ s := by
  induction ins with
  | nil => exact fun db => ⟨[], (List.append_nil _).symm⟩
  | cons q rest ih =>
    intro db
    rw [List.foldl_cons]
    obtain ⟨s1, hs1⟩ := ih (insertOrIgnoreFolder db q.1 q.2)
    obtain ⟨s0, hs0⟩ := insertOrIgnoreFolder_folder_append db q.1 q.2
    exact ⟨s0 ++ s1, by rw [hs1, hs0, List.append_assoc]⟩

theorem insFold_exists_name (ins : List (Int × String)) :
    ∀ (db : Db) (p : Int × String), p ∈ ins →
      ∃ r ∈ (ins.foldl (fun d p => insertOrIgnoreFolder d p.1 p.2) db).folder,
        r.name = p.2 := by
  induction ins with
  | nil => intro db p hp; cases hp
  | cons q rest ih =>
    intro db p hp
    rw [List.foldl_cons]
    rcases List.mem_cons.mp hp with rfl | hp
    · obtain ⟨r, hr, hrn⟩ := insertOrIgnoreFolder_exists_name db p.1 p.2
      obtain ⟨s, hs⟩ := insFold_folder_append rest (insertOrIgnoreFolder db p.1 p.2)
      exact ⟨r, by rw [hs]; exact List.mem_append_left _ hr, hrn⟩
    · exact ih _ p hp

theorem insFold_rest (ins : List (Int × String)) :
    ∀ db : Db,
      (ins.foldl (fun d p => insertOrIgnoreFolder d p.1 p.2) db).file = db.file
      ∧ (ins.foldl (fun d p => insertOrIgnoreFolder d p.1 p.2) db).meta = db.meta
      ∧ (ins.foldl (fun d p => insertOrIgnoreFolder d p.1 p.2) db).location
          = db.location := by
  induction ins with
  | nil => exact fun db => ⟨rfl, rfl, rfl⟩
  | cons q rest ih =>
    intro db
    rw [List.foldl_cons]
    obtain ⟨h1, h2, h3⟩ := ih (insertOrIgnoreFolder db q.1 q.2)
    obtain ⟨g1, g2, g3⟩ := insertOrIgnoreFolder_rest db q.1 q.2
    exact ⟨h1.trans g1, h2.trans g2, h3.trans g3⟩

theorem insFold_ids_nodup (ins : List (Int × String)) :
    ∀ db : Db, (db.folder.map (·.folder_id)).Nodup →
      ((ins.foldl (fun d p => insertOrIgnoreFolder d p.1 p.2) db).folder.map
        (·.folder_id)).Nodup := by
  induction ins with
  | nil => exact fun db h => h
  | cons q rest ih =>
    intro db h
    rw [List.foldl_cons]
    exact ih _ (insertOrIgnoreFolder_ids_nodup db q.1 q.2 h)

theorem updateFolder_name_eq (t : Int) (m : String) :
    ∀ r, ((if r.name == m then { r with last_modified := (t : ℚ) } else r) :
      FolderRow).name = r.name := by
  intro r
  split <;> rfl

theorem updateFolder_find_untouched (db : Db) (t : Int) (m n : String) (hne : m ≠ n) :
    (updateFolderLastModified db t m).folder.find? (fun r => r.name == n)
      = db.folder.find? (fun r => r.name == n) := by
  unfold updateFolderLastModified
  rw [find?_map_pred _ (fun r => r.name == n)
    (fun a => by
      show (((if a.name == m then { a with last_modified := (t : ℚ) } else a) :
        FolderRow).name == n) = (a.name == n)
      rw [updateFolder_name_eq t m a]) db.folder]
  cases hf : db.folder.find? (fun r => r.name == n) with
  | none => rfl
  | some r =>
    have hrn : r.name = n := by simpa using List.find?_some hf
    simp only [Option.map_some']
    have : (r.name == m) = false := by
      rw [hrn]
      exact beq_false_of_ne (fun h => hne h.symm)
    simp [this]

theorem updateFolder_rest (db : Db) (t : Int) (m : String) :
    (updateFolderLastModified db t m).file = db.file
    ∧ (updateFolderLastModified db t m).meta = db.meta
    ∧ (updateFolderLastModified db t m).location = db.location :=
  ⟨rfl, rfl, rfl⟩

theorem updateFolder_ids_eq (db : Db) (t : Int) (m : String) :
    (updateFolderLastModified db t m).folder.map (·.folder_id)
      = db.folder.map (·.folder_id) := by
  unfold updateFolderLastModified
  rw [List.map_map]
  apply List.map_congr_left
  intro a _
  show (if a.name == m then { a with last_modified := (t : ℚ) } else a).folder_id
    = a.folder_id
  split <;> rfl

theorem updFold_find_untouched (ins : List (Int × String)) :
    ∀ (db : Db) (n : String), (∀ p ∈ ins, p.2 ≠ n) →
      (ins.foldl (fun d p => updateFolderLastModified d p.1 p.2) db).folder.find?
          (fun r => r.name == n)
        = db.folder.find? (fun r => r.name == n) := by
  induction ins with
  | nil => exact fun db n _ => rfl
  | cons q rest ih =>
    intro db n h
    rw [List.foldl_cons]
    rw [ih _ n (fun p hp => h p (List.mem_cons_of_mem q hp))]
    exact updateFolder_find_untouched db q.1 q.2 n (h q (List.mem_cons_self q rest))

theorem updFold_rest (ins : List (Int × String)) :
    ∀ db : Db,
      (ins.foldl (fun d p => updateFolderLastModified d p.1 p.2) db).file = db.file
      ∧ (ins.foldl (fun d p => updateFolderLastModified d p.1 p.2) db).meta = db.meta
      ∧ (ins.foldl (fun d p => updateFolderLastModified d p.1 p.2) db).location
          = db.location := by
  induction ins with
  | nil => exact fun db => ⟨rfl, rfl, rfl⟩
  | cons q rest ih =>
    intro db
    rw [List.foldl_cons]
    exact ih (updateFolderLastModified db q.1 q.2)

theorem updFold_ids_eq (ins : List (Int × String)) :
    ∀ db : Db,
      (ins.foldl (fun d p => updateFolderLastModified d p.1 p.2) db).folder.map
          (·.folder_id)
        = db.folder.map (·.folder_id) := by
  induction ins with
  | nil => exact fun db => rfl
  | cons q rest ih =>
    intro db
    rw [List.foldl_cons]
    rw [ih (updateFolderLastModified db q.1 q.2)]
    exact updateFolder_ids_eq db q.1 q.2

theorem updateFolder_all_named (db : Db) (t : Int) (n : String) :
    ∀ r ∈ (updateFolderLastModified db t n).folder, r.name = n →
      r.last_modified = (t : ℚ) := by
  intro r hr hrn
  unfold updateFolderLastModified at hr
  obtain ⟨a, _, ha⟩ := List.mem_map.mp hr
  by_cases h : (a.name == n) = true
  · rw [if_pos h] at ha
    rw [← ha]
  · rw [if_neg h] at ha
    subst ha
    exact absurd (by simpa using hrn) h

theorem updateFolder_exists_name (db : Db) (t : Int) (m n : String)
    (h : ∃ r ∈ db.folder, r.name = n) :
    ∃ r ∈ (updateFolderLastModified db t m).folder, r.name = n := by
  obtain ⟨r, hr, hrn⟩ := h
  unfold updateFolderLastModified
  refine ⟨(if r.name == m then { r with last_modified := (t : ℚ) } else r),
    List.mem_map.mpr ⟨r, hr, rfl⟩, ?_⟩
  rw [updateFolder_name_eq t m r]
  exact hrn

theorem updFold_good (ins : List (Int × String)) :
    ∀ (db : Db) (t : Int) (n : String), (t, n) ∈ ins →
      (ins.map (·.2)).Nodup → (∃ r ∈ db.folder, r.name = n) →
      ∃ r, (ins.foldl (fun d p => updateFolderLastModified d p.1 p.2) db).folder.find?
            (fun x => x.name == n) = some r
        ∧ r.last_modified = (t : ℚ) := by
  induction ins with
  | nil => intro db t n h; cases h
  | cons q rest ih =>
    intro db t n hmem hnd hex
    rw [List.map_cons, List.nodup_cons] at hnd
    rcases List.mem_cons.mp hmem with heq | hmem1
    · have hq2 : q.2 = n := by rw [← heq]
      have hq1 : q.1 = t := by rw [← heq]
      rw [List.foldl_cons]
      have hnotin : ∀ p ∈ rest, p.2 ≠ n := by
        intro p hp hpe
        apply hnd.1
        rw [hq2]
        exact List.mem_map.mpr ⟨p, hp, hpe⟩
      rw [updFold_find_untouched rest _ n hnotin]
      have hex1 : ∃ r ∈ (updateFolderLastModified db q.1 q.2).folder, r.name = n :=
        updateFolder_exists_name db q.1 q.2 n hex
      have hsome : ((updateFolderLastModified db q.1 q.2).folder.find?
          (fun x => x.name == n)).isSome := by
        rw [List.find?_isSome]
        obtain ⟨r, hr, hrn⟩ := hex1
        exact ⟨r, hr, by simpa using hrn⟩
      obtain ⟨r, hr⟩ := Option.isSome_iff_exists.mp hsome
      refine ⟨r, hr, ?_⟩
      have hrn : r.name = n := by simpa using List.find?_some hr
      have hrm : r ∈ (updateFolderLastModified db q.1 q.2).folder :=
        List.mem_of_find?_eq_some hr
      have hlm := updateFolder_all_named db q.1 q.2 r hrm (by rw [hq2]; exact hrn)
      rw [← hq1]
      exact hlm
    · rw [List.foldl_cons]
      exact ih _ t n hmem1 hnd.2
        (updateFolder_exists_name db q.1 q.2 n hex)

/-! ### Phase summaries -/

theorem nodup_map_inj {α β : Type} (f : α → β) (l : List α)
    (h : (l.map f).Nodup) :
    ∀ a ∈ l, ∀ b ∈ l, f a = f b → a = b := by
  induction l with
  | nil => intro a ha; cases ha
  | cons c t ih =>
    rw [List.map_cons, List.nodup_cons] at h
    intro a ha b hb hab
    rcases List.mem_cons.mp ha with rfl | ha1
    · rcases List.mem_cons.mp hb with rfl | hb1
      · rfl
      · exact absurd (hab ▸ List.mem_map.mpr ⟨b, hb1, rfl⟩) h.1
    · rcases List.mem_cons.mp hb with rfl | hb1
      · exact absurd (hab ▸ List.mem_map.mpr ⟨a, ha1, rfl⟩) h.1
    
      · exact ih h.2 a ha1 b hb1 hab

theorem updateModifiedFolders_rest (fs : FileSystem) (db : Db) (fr : Bool) :
    (updateModifiedFolders fs db fr).1.file = db.file
    ∧ (updateModifiedFolders fs db fr).1.meta = db.meta
    ∧ (updateModifiedFolders fs db fr).1.location = db.location := by
  unfold updateModifiedFolders
  obtain ⟨h1, h2, h3⟩ := updFold_rest (collectFolders db fr fs.folders).2.1
    ((collectFolders db fr fs.folders).2.1.foldl
      (fun d p => insertOrIgnoreFolder d p.1 p.2) db)
  obtain ⟨g1, g2, g3⟩ := insFold_rest (collectFolders db fr fs.folders).2.1 db
  exact ⟨h1.trans g1, h2.trans g2, h3.trans g3⟩

theorem updateModifiedFolders_ids_nodup (fs : FileSystem) (db : Db) (fr : Bool)
    (h : (db.folder.map (·.folder_id)).Nodup) :
    ((updateModifiedFolders fs db fr).1.folder.map (·.folder_id)).Nodup := by
  unfold updateModifiedFolders
  rw [updFold_ids_eq]
  exact insFold_ids_nodup _ db h

theorem updateModifiedFolders_flag (fs : FileSystem) (db : Db) :
    (updateModifiedFolders fs db false).2.2 = false := by
  unfold updateModifiedFolders
  rw [collectFolders_false]

theorem updateModifiedFolders_good (fs : FileSystem) (db : Db)
    (hnd : (fs.folders.map (·.name)).Nodup) :
    ∀ d ∈ fs.folders, folderOutOfDate (updateModifiedFolders fs db false).1 d = false := by
  intro d hd
  have hc : (collectFolders db false fs.folders).2.1
      = (fs.folders.filter (folderOutOfDate db)).map
          (fun d => (pyInt d.mtime, d.name)) := by
    rw [collectFolders_false]
  have hinsnames : ((fs.folders.filter (folderOutOfDate db)).map
      (fun d => (pyInt d.mtime, d.name))).map (·.2)
      = (fs.folders.filter (folderOutOfDate db)).map (·.name) := by
    rw [List.map_map]
    rfl
  by_cases hood : folderOutOfDate db d = true
  · -- the folder was collected: its row is updated to the current mod time
    have hmem : (pyInt d.mtime, d.name) ∈ (collectFolders db false fs.folders).2.1 := by
      rw [hc]
      exact List.mem_map.mpr ⟨d, List.mem_filter.mpr ⟨hd, hood⟩, rfl⟩
    have hnd2 : ((collectFolders db false fs.folders).2.1.map (·.2)).Nodup := by
      rw [hc, hinsnames]
      exact ((List.filter_sublist fs.folders).map (fun d : FsFolder => d.name)).nodup hnd
    have hex : ∃ r ∈ ((collectFolders db false fs.folders).2.1.foldl
        (fun d p => insertOrIgnoreFolder d p.1 p.2) db).folder, r.name = d.name :=
      insFold_exists_name _ db _ hmem
    obtain ⟨r, hfind, hlm⟩ := updFold_good (collectFolders db false fs.folders).2.1
      _ (pyInt d.mtime) d.name hmem hnd2 hex
    unfold updateModifiedFolders
    unfold folderOutOfDate
    rw [hfind]
    simp [hlm]
  · -- the folder was current: its first row is untouched
    have hood1 : folderOutOfDate db d = false := by
      cases h : folderOutOfDate db d
      · rfl
      · exact absurd h hood
    obtain ⟨r0, hr0, hr0lt⟩ : ∃ r0, db.folder.find? (fun r => r.name == d.name)
        = some r0 ∧ (decide (r0.last_modified < (pyInt d.mtime : ℚ))) = false := by
      unfold folderOutOfDate at hood1
      cases hf : db.folder.find? (fun r => r.name == d.name) with
      | none => rw [hf] at hood1; cases hood1
      | some r0 => rw [hf] at hood1; exact ⟨r0, rfl, hood1⟩
    have hnotin : ∀ p ∈ (collectFolders db false fs.folders).2.1, p.2 ≠ d.name := by
      intro p hp hpe
      rw [hc] at hp
      obtain ⟨d1, hd1, hd1e⟩ := List.mem_map.mp hp
      have hd1m := List.mem_filter.mp hd1
      have : d1.name = d.name := by rw [← hd1e] at hpe; exact hpe
      have : d1 = d := nodup_map_inj (·.name) fs.folders hnd d1 hd1m.1 d hd this
      rw [this] at hd1m
      rw [hd1m.2] at hood1
      cases hood1
    unfold updateModifiedFolders
    unfold folderOutOfDate
    rw [updFold_find_untouched _ _ _ hnotin]
    obtain ⟨s, hs⟩ := insFold_folder_append (collectFolders db false fs.folders).2.1 db
    rw [hs, List.find?_append, hr0]
    simp only [Option.or_some]
    exact hr0lt

theorem insertOrReplaceFile_rest (db : Db) (r : FileIns) :
    (insertOrReplaceFile db r).folder = db.folder
    ∧ (insertOrReplaceFile db r).meta = db.meta
    ∧ (insertOrReplaceFile db r).location = db.location := by
  unfold insertOrReplaceFile
  split <;> exact ⟨rfl, rfl, rfl⟩

theorem fileFold_rest (ins : List FileIns) :
    ∀ db : Db,
      (ins.foldl insertOrReplaceFile db).folder = db.folder
      ∧ (ins.foldl insertOrReplaceFile db).meta = db.meta
      ∧ (ins.foldl insertOrReplaceFile db).location = db.location := by
  induction ins with
  | nil => exact fun db => ⟨rfl, rfl, rfl⟩
  | cons q rest ih =>
    intro db
    rw [List.foldl_cons]
    obtain ⟨h1, h2, h3⟩ := ih (insertOrReplaceFile db q)
    obtain ⟨g1, g2, g3⟩ := insertOrReplaceFile_rest db q
    exact ⟨h1.trans g1, h2.trans g2, h3.trans g3⟩

theorem updateModifiedFiles_rest (fs : FileSystem) (dirs : List String) (db : Db) :
    (updateModifiedFiles fs db dirs).1.folder = db.folder
    ∧ (updateModifiedFiles fs db dirs).1.meta = db.meta
    ∧ (updateModifiedFiles fs db dirs).1.location = db.location :=
  fileFold_rest (collectFiles fs db dirs).2 db

theorem insertOrReplaceMeta_rest (db : Db) (fname : String) (m : MetaDict) :
    (insertOrReplaceMeta db fname m).folder = db.folder
    ∧ (insertOrReplaceMeta db fname m).file = db.file
    ∧ (insertOrReplaceMeta db fname m).location = db.location := by
  unfold insertOrReplaceMeta
  split <;> exact ⟨rfl, rfl, rfl⟩

theorem updateMetaData_rest (exif : String → ExifData) (pt : String → Option ℚ)
    (fs : FileSystem) (db db1 : Db) (files : List String)
    (h : updateMetaData exif pt fs db files = .ok db1) :
    db1.folder = db.folder ∧ db1.file = db.file ∧ db1.location = db.location := by
  unfold updateMetaData at h
  split at h
  · cases h
  · next pairs heq =>
    rw [Except.ok.injEq] at h
    subst h
    clear heq
    induction pairs generalizing db with
    | nil => exact ⟨rfl, rfl, rfl⟩
    | cons q rest ih =>
      rw [List.foldl_cons]
      obtain ⟨h1, h2, h3⟩ := ih (insertOrReplaceMeta db q.1 q.2)
      obtain ⟨g1, g2, g3⟩ := insertOrReplaceMeta_rest db q.1 q.2
      exact ⟨h1.trans g1, h2.trans g2, h3.trans g3⟩

/-! ### Purge fusion lemmas -/

theorem cascade_meta_pred (dbfile : List FileRow) (i : Int) (rest : List Int)
    (m : MetaRow) :
    (!((dbfile.filter (fun f => !(f.folder_id == i))).any
          (fun f => rest.contains f.folder_id && f.file_id == m.file_id))
        && !((dbfile.filter (fun f => f.folder_id == i)).any
          (fun f => f.file_id == m.file_id)))
      = !(dbfile.any (fun f =>
          (i :: rest).contains f.folder_id && f.file_id == m.file_id)) := by
  rw [← Bool.not_or]
  apply congrArg
  rw [Bool.eq_iff_iff]
  simp only [List.any_filter, List.any_eq_true, List.contains_cons, Bool.or_eq_true,
    Bool.and_eq_true, Bool.not_eq_eq_eq_not, Bool.not_true, beq_iff_eq]
  constructor
  · rintro (⟨f, hf, hnoti, hrest, hfid⟩ | ⟨f, hf, hi, hfid⟩)
    · exact ⟨f, hf, Or.inr hrest, hfid⟩
    · exact ⟨f, hf, Or.inl hi, hfid⟩
  · rintro ⟨f, hf, hc, hfid⟩
    rcases hc with hi | hrest
    · exact Or.inr ⟨f, hf, hi, hfid⟩
    · by_cases hie : f.folder_id = i
      · exact Or.inr ⟨f, hf, hie, hfid⟩
      · exact Or.inl ⟨f, hf, by simpa using hie, hrest, hfid⟩

theorem purgeFolders_fold (l : List Int) :
    ∀ db : Db, l.foldl deleteFolderRowCascade db =
      { folder := db.folder.filter (fun r => !l.contains r.folder_id),
        file := db.file.filter (fun f => !l.contains f.folder_id),
        meta := db.meta.filter (fun m =>
          !(db.file.any (fun f => l.contains f.folder_id && f.file_id == m.file_id))),
        location := db.location } := by
  induction l with
  | nil =>
    intro db
    have hany : ∀ l : List FileRow, (l.any fun _ => false) = false := fun l => by simp
    simp [hany]
  | cons i rest ih =>
    intro db
    rw [List.foldl_cons, ih (deleteFolderRowCascade db i)]
    unfold deleteFolderRowCascade
    simp only
    congr 1
    · rw [List.filter_filter]
      apply List.filter_congr
      intro r _
      rw [List.contains_cons, Bool.not_or, Bool.and_comm]
    · rw [List.filter_filter]
      apply List.filter_congr
      intro f _
      rw [List.contains_cons, Bool.not_or, Bool.and_comm]
    · rw [List.filter_filter]
      apply List.filter_congr
      intro m _
      exact cascade_meta_pred db.file i rest m

theorem purgeFiles_fold (l : List Int) :
    ∀ db : Db, l.foldl deleteFileRowCascade db =
      { folder := db.folder,
        file := db.file.filter (fun f => !l.contains f.file_id),
        meta := db.meta.filter (fun m => !l.contains m.file_id),
        location := db.location } := by
  induction l with
  | nil =>
    intro db
    simp
  | cons i rest ih =>
    intro db
    rw [List.foldl_cons, ih (deleteFileRowCascade db i)]
    unfold deleteFileRowCascade
    simp only
    congr 1
    · rw [List.filter_filter]
      apply List.filter_congr
      intro f _
      rw [List.contains_cons, Bool.not_or, Bool.and_comm]
    · rw [List.filter_filter]
      apply List.filter_congr
      intro m _
      rw [List.contains_cons, Bool.not_or, Bool.and_comm]

/-! ### Purge facts -/

theorem contains_eq_true_of_mem {α : Type} [BEq α] [LawfulBEq α] {l : List α}
    {a : α} (h : a ∈ l) : l.contains a = true :=
  List.elem_eq_true_of_mem h

theorem folderOutOfDate_congr (db db1 : Db) (h : db1.folder = db.folder)
    (d : FsFolder) : folderOutOfDate db1 d = folderOutOfDate db d := by
  unfold folderOutOfDate
  rw [h]

theorem pathExists_of_folder_mem (fs : FileSystem) (d : FsFolder)
    (hd : d ∈ fs.folders) : pathExists fs d.name = true := by
  unfold pathExists
  rw [Bool.or_eq_true, List.any_eq_true]
  exact Or.inl ⟨d, hd, by simp⟩

theorem purge_find_folder (fs : FileSystem) (db : Db)
    (hid : (db.folder.map (·.folder_id)).Nodup) (n : String)
    (hex : pathExists fs n = true) :
    (purgeMissing fs db).folder.find? (fun r => r.name == n)
      = db.folder.find? (fun r => r.name == n) := by
  unfold purgeMissing
  rw [purgeFiles_fold, purgeFolders_fold]
  simp only
  apply find?_filter_keep
  intro r hr hrn
  have hrname : r.name = n := by simpa using hrn
  rw [Bool.not_eq_eq_eq_not, Bool.not_true]
  cases hc : ((db.folder.filter (fun x => !pathExists fs x.name)).map
      (·.folder_id)).contains r.folder_id
  · rfl
  · exfalso
    have hmem := List.elem_iff.mp hc
    obtain ⟨b, hb, hbid⟩ := List.mem_map.mp hmem
    have hbm := List.mem_filter.mp hb
    have : b = r := nodup_map_inj (·.folder_id) db.folder hid b hbm.1 r hr hbid
    rw [this, hrname] at hbm
    rw [hex] at hbm
    simp at hbm

theorem purge_folder_all_exists (fs : FileSystem) (db : Db) :
    ∀ r ∈ (purgeMissing fs db).folder, pathExists fs r.name = true := by
  intro r hr
  unfold purgeMissing at hr
  rw [purgeFiles_fold, purgeFolders_fold] at hr
  simp only at hr
  have hrm := List.mem_filter.mp hr
  cases hex : pathExists fs r.name
  · exfalso
    have hcn : ((db.folder.filter (fun x => !pathExists fs x.name)).map
        (·.folder_id)).contains r.folder_id = true :=
      contains_eq_true_of_mem
        (List.mem_map.mpr ⟨r, List.mem_filter.mpr ⟨hrm.1, by rw [hex]; rfl⟩, rfl⟩)
    rw [hcn] at hrm
    simp at hrm
  · rfl

theorem buildRow_eq_of_meta_find (folders : List FolderRow)
    (metas metas1 : List MetaRow) (locs : List LocationRow) (f : FileRow)
    (h : metas1.find? (fun mr => mr.file_id == f.file_id)
      = metas.find? (fun mr => mr.file_id == f.file_id)) :
    buildRow folders metas1 locs f = buildRow folders metas locs f := by
  unfold buildRow
  rw [h]

theorem buildRow_file_id (folders : List FolderRow) (metas : List MetaRow)
    (locs : List LocationRow) (f : FileRow) (v : ViewRow)
    (h : buildRow folders metas locs f = some v) :
    v.file_id = none ∨ v.file_id = some f.file_id := by
  unfold buildRow at h
  cases hfo : folders.find? (fun fo => fo.folder_id == f.folder_id) with
  | none => rw [hfo] at h; cases h
  | some fo =>
    rw [hfo, Option.map_some'] at h
    rw [Option.some.injEq] at h
    subst h
    cases hm : metas.find? (fun mr => mr.file_id == f.file_id) with
    | none => exact Or.inl (by simp [hm])
    | some mr =>
      refine Or.inr ?_
      have : mr.file_id = f.file_id := by simpa using List.find?_some hm
      simp [hm, this]

theorem purge_view_exists (fs : FileSystem) (db : Db) :
    ∀ v ∈ allData (purgeMissing fs db), v.file_id.isSome →
      pathExists fs v.fname = true := by
  intro v hv hsome
  unfold purgeMissing at hv
  rw [purgeFiles_fold] at hv
  set db1 := ((db.folder.filter (fun r => !pathExists fs r.name)).map
    (·.folder_id)).foldl deleteFolderRowCascade db with hdb1
  set fids := ((allData db1).filter (fun r => !pathExists fs r.fname)).filterMap
    (·.file_id) with hfids
  unfold allData at hv
  simp only at hv
  obtain ⟨f, hf, hbuild⟩ := List.mem_filterMap.mp hv
  have hfm := List.mem_filter.mp hf
  have hkeep : (fids.contains f.file_id) = false := by
    have := hfm.2
    rw [Bool.not_eq_eq_eq_not, Bool.not_true] at this
    exact this
  have hfind : (db1.meta.filter (fun m => !fids.contains m.file_id)).find?
      (fun mr => mr.file_id == f.file_id)
      = db1.meta.find? (fun mr => mr.file_id == f.file_id) := by
    apply find?_filter_keep
    intro m _ hmf
    have : m.file_id = f.file_id := by simpa using hmf
    rw [this, hkeep]
    rfl
  have hbuild1 : buildRow db1.folder db1.meta db1.location f = some v := by
    rw [← buildRow_eq_of_meta_find db1.folder db1.meta
      (db1.meta.filter (fun m => !fids.contains m.file_id)) db1.location f hfind]
    exact hbuild
  have hv1 : v ∈ allData db1 := by
    unfold allData
    exact List.mem_filterMap.mpr ⟨f, hfm.1, hbuild1⟩
  cases hex : pathExists fs v.fname
  · exfalso
    rcases buildRow_file_id db1.folder db1.meta db1.location f v hbuild1 with hn | hs
    · rw [hn] at hsome; cases hsome
    · have hcn : fids.contains f.file_id = true := by
        apply contains_eq_true_of_mem
        rw [hfids]
        exact List.mem_filterMap.mpr ⟨v, List.mem_filter.mpr ⟨hv1, by rw [hex]; rfl⟩, hs⟩
      rw [hcn] at hkeep
      cases hkeep
  · rfl

theorem purge_fix (fs : FileSystem) (db : Db)
    (h2 : ∀ r ∈ db.folder, pathExists fs r.name = true)
    (h3 : ∀ v ∈ allData db, v.file_id.isSome → pathExists fs v.fname = true) :
    purgeMissing fs db = db := by
  unfold purgeMissing
  have hfolderIds : (db.folder.filter (fun r => !pathExists fs r.name)).map
      (·.folder_id) = ([] : List Int) := by
    rw [List.filter_eq_nil_iff.mpr]
    · rfl
    · intro r hr
      rw [h2 r hr]
      simp
  rw [hfolderIds]
  simp only [List.foldl_nil]
  have hfileIds : ((allData db).filter (fun r => !pathExists fs r.fname)).filterMap
      (·.file_id) = ([] : List Int) := by
    rw [List.filterMap_eq_nil_iff.mpr]
    intro v hv
    have hvm := List.mem_filter.mp hv
    cases hvf : v.file_id with
    | none => rfl
    | some i =>
      exfalso
      have := h3 v hvm.1 (by rw [hvf]; rfl)
      rw [this] at hvm
      simp at hvm
  rw [hfileIds]
  rfl

/-! ### C4: idempotence of the update cycle -/

theorem updateModifiedFolders_nil (fs : FileSystem) (db : Db) (fr : Bool)
    (h : ∀ d ∈ fs.folders, folderOutOfDate db d = false) :
    updateModifiedFolders fs db fr = (db, [], fr) := by
  unfold updateModifiedFolders
  rw [collectFolders_nil_of_current db fr fs.folders h]
  rfl

theorem purge_folderOutOfDate (fs : FileSystem) (db : Db)
    (hid : (db.folder.map (·.folder_id)).Nodup) (d : FsFolder)
    (hex : pathExists fs d.name = true) :
    folderOutOfDate (purgeMissing fs db) d = folderOutOfDate db d := by
  unfold folderOutOfDate
  rw [purge_find_folder fs db hid d.name hex]

/-- C4 (amended): provided the cycle is not the process's very first (the
first-run flag is clear) — and with the primary-key uniqueness of folder
rowids and `os.walk`'s distinct directory names — running a full update
cycle twice over an unchanged filesystem yields empty modified-folder and
modified-file sets on the second run, and the store after the second run is
the store after the first, row for row. -/
theorem C4_second_cycle_empty (exif : String → ExifData) (pt : String → Option ℚ)
    (fs : FileSystem) (s1 s2 : CacheState) (mf mfi : List String)
    (hnd : (fs.folders.map (·.name)).Nodup)
    (hid : (s1.db.folder.map (·.folder_id)).Nodup)
    (hfr : s1.firstRun = false)
    (h : runCycle exif pt fs s1 = .ok (s2, mf, mfi)) :
    runCycle exif pt fs s2 = .ok (s2, [], []) := by
  simp only [runCycle, hfr] at h
  revert h
  cases hu : updateMetaData exif pt fs
      (updateModifiedFiles fs (updateModifiedFolders fs s1.db false).1
        (updateModifiedFolders fs s1.db false).2.1).1
      (updateModifiedFiles fs (updateModifiedFolders fs s1.db false).1
        (updateModifiedFolders fs s1.db false).2.1).2 with
  | error e => intro h; cases h
  | ok db3 =>
    intro h
    rw [Except.ok.injEq, Prod.mk.injEq] at h
    have hs2 : s2 = ⟨purgeMissing fs db3,
        (updateModifiedFolders fs s1.db false).2.2⟩ := h.1.symm
    have hflag : (updateModifiedFolders fs s1.db false).2.2 = false :=
      updateModifiedFolders_flag fs s1.db
    rw [hflag] at hs2
    -- the folder table after the metadata phase is the scanner's
    have hBf := (updateModifiedFiles_rest fs
      (updateModifiedFolders fs s1.db false).2.1
      (updateModifiedFolders fs s1.db false).1).1
    have hDf := (updateMetaData_rest exif pt fs _ db3 _ hu).1
    have hD3A : db3.folder = (updateModifiedFolders fs s1.db false).1.folder :=
      hDf.trans hBf
    have hidA : ((updateModifiedFolders fs s1.db false).1.folder.map
        (·.folder_id)).Nodup := updateModifiedFolders_ids_nodup fs s1.db false hid
    have hid3 : (db3.folder.map (·.folder_id)).Nodup := by rw [hD3A]; exact hidA
    have hgood3 : ∀ d ∈ fs.folders, folderOutOfDate db3 d = false := by
      intro d hd
      rw [folderOutOfDate_congr (updateModifiedFolders fs s1.db false).1 db3 hD3A]
      exact updateModifiedFolders_good fs s1.db hnd d hd
    have hgoodE : ∀ d ∈ fs.folders,
        folderOutOfDate (purgeMissing fs db3) d = false := by
      intro d hd
      rw [purge_folderOutOfDate fs db3 hid3 d (pathExists_of_folder_mem fs d hd)]
      exact hgood3 d hd
    have hallE : ∀ r ∈ (purgeMissing fs db3).folder, pathExists fs r.name = true :=
      purge_folder_all_exists fs db3
    have hviewE : ∀ v ∈ allData (purgeMissing fs db3), v.file_id.isSome →
        pathExists fs v.fname = true := purge_view_exists fs db3
    -- second run
    rw [hs2]
    simp only [runCycle]
    rw [updateModifiedFolders_nil fs (purgeMissing fs db3) false hgoodE]
    dsimp only
    rw [show updateModifiedFiles fs (purgeMissing fs db3) []
      = (purgeMissing fs db3, []) from rfl]
    dsimp only
    rw [show updateMetaData exif pt fs (purgeMissing fs db3) []
      = Except.ok (purgeMissing fs db3) from rfl]
    dsimp only
    rw [purge_fix fs (purgeMissing fs db3) hallE hviewE]

theorem C4_counterexample :
    runCycle exifNone parseNone ⟨[⟨"/p/a", 1⟩, ⟨"/p/b", 1⟩], []⟩
        ⟨⟨[], [], [], []⟩, true⟩
      = .ok (⟨⟨[⟨1, "/p/a", 1⟩], [], [], []⟩, false⟩, ["/p/a"], [])
    ∧ runCycle exifNone parseNone ⟨[⟨"/p/a", 1⟩, ⟨"/p/b", 1⟩], []⟩
        ⟨⟨[⟨1, "/p/a", 1⟩], [], [], []⟩, false⟩
      = .ok (⟨⟨[⟨1, "/p/a", 1⟩, ⟨2, "/p/b", 1⟩], [], [], []⟩, false⟩, ["/p/b"], []) :=
  ⟨by decide, by decide⟩

def fsW4 : FileSystem := ⟨[⟨"/p", 1⟩], [⟨"/p", "x.jpg", 1⟩]⟩

def mW4 : MetaDict :=
  { orientation := 1, width := 4, height := 3, f_number := none, make := none,
    model := none, exposure_time := none, iso := none, focal_length := none,
    rating := none, lens := none, exif_datetime := 1, latitude := none,
    longitude := none }

def s2W4 : CacheState :=
  ⟨⟨[⟨1, "/p", 1⟩], [⟨1, 1, "x", "jpg", 1⟩], [⟨1, mW4⟩], []⟩, false⟩

theorem C4_second_cycle_empty_witness :
    ((fsW4.folders.map (·.name)).Nodup
      ∧ ((⟨⟨[], [], [], []⟩, false⟩ : CacheState).db.folder.map (·.folder_id)).Nodup
      ∧ (⟨⟨[], [], [], []⟩, false⟩ : CacheState).firstRun = false
      ∧ runCycle exifNone parseNone fsW4 ⟨⟨[], [], [], []⟩, false⟩
          = .ok (s2W4, ["/p"], ["/p/x.jpg"]))
    ∧ runCycle exifNone parseNone fsW4 s2W4 = .ok (s2W4, [], []) :=
  ⟨⟨by decide, by decide, rfl, by decide⟩,
   C4_second_cycle_empty exifNone parseNone fsW4 ⟨⟨[], [], [], []⟩, false⟩ s2W4
     ["/p"] ["/p/x.jpg"] (by decide) (by decide) rfl (by decide)⟩

/-! ### C2: folder deletion cascade -/

theorem contains_iff_mem {α : Type} [BEq α] [LawfulBEq α] {l : List α} {a : α} :
    l.contains a = true ↔ a ∈ l :=
  ⟨fun h => List.mem_of_elem_eq_true h, fun h => List.elem_eq_true_of_mem h⟩

theorem buildRow_some_elim (folders : List FolderRow) (metas : List MetaRow)
    (locs : List LocationRow) (f : FileRow) (v : ViewRow)
    (h : buildRow folders metas locs f = some v) :
    ∃ fo, folders.find? (fun x => x.folder_id == f.folder_id) = some fo
      ∧ v.fname = fo.name ++ "/" ++ f.basename ++ "." ++ f.extension := by
  unfold buildRow at h
  cases hfo : folders.find? (fun x => x.folder_id == f.folder_id) with
  | none => rw [hfo] at h; cases h
  | some fo =>
    rw [hfo, Option.map_some'] at h
    rw [Option.some.injEq] at h
    subst h
    exact ⟨fo, rfl, rfl⟩

theorem purge_removes_folder (fs1 : FileSystem) (db : Db) (F : String)
    (hid : (db.folder.map (·.folder_id)).Nodup)
    (hother : ∀ r ∈ db.folder, r.name = F ∨ pathExists fs1 r.name = true)
    (hgone : pathExists fs1 F = false)
    (hfiles : ∀ f ∈ db.file, ∀ fo : FolderRow,
      db.folder.find? (fun r => r.folder_id == f.folder_id) = some fo →
      fo.name ≠ F →
      pathExists fs1 (fo.name ++ "/" ++ f.basename ++ "." ++ f.extension) = true) :
    purgeMissing fs1 db =
      ⟨db.folder.filter (fun r => !(r.name == F)),
       db.file.filter (fun f =>
         !(((db.folder.filter (fun r => r.name == F)).map (·.folder_id)).contains
           f.folder_id)),
       db.meta.filter (fun m =>
         !(((db.file.filter (fun f =>
             ((db.folder.filter (fun r => r.name == F)).map (·.folder_id)).contains
               f.folder_id)).map (·.file_id)).contains m.file_id)),
       db.location⟩ := by
  have hfsel : db.folder.filter (fun r => !pathExists fs1 r.name)
      = db.folder.filter (fun r => r.name == F) := by
    apply List.filter_congr
    intro r hr
    rcases hother r hr with hF | hex
    · rw [hF, hgone]
      simp
    · have hne : r.name ≠ F := by
        intro hc
        rw [hc] at hex
        rw [hex] at hgone
        cases hgone
      rw [hex]
      simp [hne]
  simp only [purgeMissing]
  rw [hfsel, purgeFolders_fold]
  set DB1 : Db :=
    ⟨db.folder.filter (fun r =>
        !(((db.folder.filter (fun x => x.name == F)).map (·.folder_id)).contains
          r.folder_id)),
      db.file.filter (fun f =>
        !(((db.folder.filter (fun x => x.name == F)).map (·.folder_id)).contains
          f.folder_id)),
      db.meta.filter (fun m =>
        !(db.file.any (fun f =>
          ((db.folder.filter (fun x => x.name == F)).map (·.folder_id)).contains
              f.folder_id && f.file_id == m.file_id))),
      db.location⟩ with hDB1
  have hkeepAll : ∀ v ∈ allData DB1, pathExists fs1 v.fname = true := by
    intro v hv
    rw [hDB1] at hv
    obtain ⟨f, hf, hbuild⟩ := List.mem_filterMap.mp hv
    have hfm := List.mem_filter.mp hf
    have hkeepf : ((db.folder.filter (fun x => x.name == F)).map
        (·.folder_id)).contains f.folder_id = false := by
      have := hfm.2
      rw [Bool.not_eq_eq_eq_not, Bool.not_true] at this
      exact this
    have hfo1 : (db.folder.filter (fun r =>
        !(((db.folder.filter (fun x => x.name == F)).map (·.folder_id)).contains
          r.folder_id))).find? (fun x => x.folder_id == f.folder_id)
        = db.folder.find? (fun x => x.folder_id == f.folder_id) := by
      apply find?_filter_keep
      intro r _ hbeq
      have : r.folder_id = f.folder_id := by simpa using hbeq
      rw [this, hkeepf]
      rfl
    obtain ⟨fo, hfind, hfname⟩ := buildRow_some_elim _ _ _ f v hbuild
    rw [hfo1] at hfind
    have hfoid : fo.folder_id = f.folder_id := by
      simpa using List.find?_some hfind
    have hfomem : fo ∈ db.folder := List.mem_of_find?_eq_some hfind
    have hfone : fo.name ≠ F := by
      intro hc
      have : fo.folder_id ∈ (db.folder.filter (fun x => x.name == F)).map
          (·.folder_id) :=
        List.mem_map.mpr ⟨fo, List.mem_filter.mpr ⟨hfomem, by simp [hc]⟩, rfl⟩
      have hcn := contains_iff_mem.mpr this
      rw [hfoid] at hcn
      rw [hcn] at hkeepf
      cases hkeepf
    rw [hfname]
    exact hfiles f hfm.1 fo hfind hfone
  have hfids : (allData DB1).filter (fun r => !pathExists fs1 r.fname) = [] :=
    List.filter_eq_nil_iff.mpr (fun v hv => by rw [hkeepAll v hv]; simp)
  rw [hfids]
  simp only [List.filterMap_nil, List.foldl_nil]
  rw [hDB1]
  have hfolder_eq : db.folder.filter (fun r =>
      !(((db.folder.filter (fun x => x.name == F)).map (·.folder_id)).contains
        r.folder_id)) = db.folder.filter (fun r => !(r.name == F)) := by
    apply List.filter_congr
    intro r hr
    apply congrArg
    rw [Bool.eq_iff_iff]
    constructor
    · intro hc
      obtain ⟨b, hb, hbid⟩ := List.mem_map.mp (contains_iff_mem.mp hc)
      have hbm := List.mem_filter.mp hb
      have : b = r := nodup_map_inj (·.folder_id) db.folder hid b hbm.1 r hr hbid
      rw [← this]
      exact hbm.2
    · intro hrF
      apply contains_iff_mem.mpr
      exact List.mem_map.mpr ⟨r, List.mem_filter.mpr ⟨hr, hrF⟩, rfl⟩
  have hmeta_eq : db.meta.filter (fun m =>
      !(db.file.any (fun f =>
        ((db.folder.filter (fun x => x.name == F)).map (·.folder_id)).contains
            f.folder_id && f.file_id == m.file_id)))
      = db.meta.filter (fun m =>
        !(((db.file.filter (fun f =>
            ((db.folder.filter (fun x => x.name == F)).map (·.folder_id)).contains
              f.folder_id)).map (·.file_id)).contains m.file_id)) := by
    apply List.filter_congr
    intro m _
    apply congrArg
    rw [Bool.eq_iff_iff]
    rw [List.any_eq_true]
    constructor
    · rintro ⟨f, hf, hff⟩
      rw [Bool.and_eq_true] at hff
      apply contains_iff_mem.mpr
      refine List.mem_map.mpr ⟨f, List.mem_filter.mpr ⟨hf, hff.1⟩, ?_⟩
      simpa using hff.2
    · intro hc
      obtain ⟨f, hf, hfid⟩ := List.mem_map.mp (contains_iff_mem.mp hc)
      have hfm := List.mem_filter.mp hf
      exact ⟨f, hfm.1, by rw [Bool.and_eq_true]; exact ⟨hfm.2, by simp [hfid]⟩⟩
  rw [hfolder_eq, hmeta_eq]

/-- C2: deleting a Folder row cascades to its File rows and their Meta rows
(the two cleanup triggers), and the end-to-end consequence on the running
system: after a watched folder `F` disappears from disk and one update
cycle runs — with the remaining tree unchanged and its files still on
disk — the store holds no Folder row named `F`, no File row owned by any
`F`-named row, and no Meta row of any such File row, while every other
Folder/File/Meta row and the whole `location` table are unchanged; the
cycle reports no modified folders or files. -/
theorem C2_folder_removal_cascade (exif : String → ExifData)
    (pt : String → Option ℚ) (fs1 : FileSystem) (db : Db) (F : String)
    (hid : (db.folder.map (·.folder_id)).Nodup)
    (hcur : ∀ d ∈ fs1.folders, folderOutOfDate db d = false)
    (hother : ∀ r ∈ db.folder, r.name = F ∨ pathExists fs1 r.name = true)
    (hgone : pathExists fs1 F = false)
    (hfiles : ∀ f ∈ db.file,
      ((db.folder.find? (fun r => r.folder_id == f.folder_id)).all
        (fun fo => fo.name == F
          || pathExists fs1 (fo.name ++ "/" ++ f.basename ++ "." ++ f.extension)))
        = true) :
    runCycle exif pt fs1 ⟨db, false⟩ = .ok
      (⟨⟨db.folder.filter (fun r => !(r.name == F)),
         db.file.filter (fun f =>
           !(((db.folder.filter (fun r => r.name == F)).map (·.folder_id)).contains
             f.folder_id)),
         db.meta.filter (fun m =>
           !(((db.file.filter (fun f =>
               ((db.folder.filter (fun r => r.name == F)).map (·.folder_id)).contains
                 f.folder_id)).map (·.file_id)).contains m.file_id)),
         db.location⟩, false⟩, [], []) := by
  have hfiles1 : ∀ f ∈ db.file, ∀ fo : FolderRow,
      db.folder.find? (fun r => r.folder_id == f.folder_id) = some fo →
      fo.name ≠ F →
      pathExists fs1 (fo.name ++ "/" ++ f.basename ++ "." ++ f.extension) = true := by
    intro f hf fo hfind hne
    have hb := hfiles f hf
    rw [hfind] at hb
    have hb1 : (fo.name == F
        || pathExists fs1 (fo.name ++ "/" ++ f.basename ++ "." ++ f.extension))
        = true := hb
    by_cases hF : fo.name = F
    · exact absurd hF hne
    · have hbeq : (fo.name == F) = false := beq_eq_false_iff_ne.mpr hF
      rw [hbeq, Bool.false_or] at hb1
      exact hb1
  simp only [runCycle]
  rw [updateModifiedFolders_nil fs1 db false hcur]
  dsimp only
  rw [show updateModifiedFiles fs1 db [] = (db, []) from rfl]
  dsimp only
  rw [show updateMetaData exif pt fs1 db [] = .ok db from rfl]
  dsimp only
  rw [purge_removes_folder fs1 db F hid hother hgone hfiles1]

def fsW2 : FileSystem := ⟨[⟨"/p/a", 1⟩], [⟨"/p/a", "x.jpg", 1⟩]⟩

def mW2 : MetaDict :=
  { orientation := 1, width := 4, height := 3, f_number := none, make := none,
    model := none, exposure_time := none, iso := none, focal_length := none,
    rating := none, lens := none, exif_datetime := 1, latitude := none,
    longitude := none }

def dbW2 : Db :=
  ⟨[⟨1, "/p/a", 1⟩, ⟨2, "/p/b", 1⟩],
   [⟨1, 1, "x", "jpg", 1⟩, ⟨2, 2, "y", "jpg", 1⟩],
   [⟨1, mW2⟩, ⟨2, mW2⟩],
   [⟨1, some 51, some 2, some "London"⟩]⟩

theorem C2_folder_removal_cascade_witness :
    ((dbW2.folder.map (·.folder_id)).Nodup
      ∧ (∀ d ∈ fsW2.folders, folderOutOfDate dbW2 d = false)
      ∧ (∀ r ∈ dbW2.folder, r.name = "/p/b" ∨ pathExists fsW2 r.name = true)
      ∧ pathExists fsW2 "/p/b" = false
      ∧ (∀ f ∈ dbW2.file,
        ((dbW2.folder.find? (fun r => r.folder_id == f.folder_id)).all
          (fun fo => fo.name == "/p/b"
            || pathExists fsW2 (fo.name ++ "/" ++ f.basename ++ "." ++ f.extension)))
          = true))
    ∧ runCycle exifNone parseNone fsW2 ⟨dbW2, false⟩ = .ok
        (⟨⟨dbW2.folder.filter (fun r => !(r.name == "/p/b")),
           dbW2.file.filter (fun f =>
             !(((dbW2.folder.filter (fun r => r.name == "/p/b")).map
               (·.folder_id)).contains f.folder_id)),
           dbW2.meta.filter (fun m =>
             !(((dbW2.file.filter (fun f =>
                 ((dbW2.folder.filter (fun r => r.name == "/p/b")).map
                   (·.folder_id)).contains f.folder_id)).map
               (·.file_id)).contains m.file_id)),
           dbW2.location⟩, false⟩, [], []) :=
  ⟨⟨by decide, by decide, by decide, by decide, by decide⟩,
   C2_folder_removal_cascade exifNone parseNone fsW2 dbW2 "/p/b" (by decide)
     (by decide) (by decide) (by decide) (by decide)⟩
